import Mathlib

/-!
# HackatonSantoDigital: the CSV-backed product store

A shallow embedding of `service/csv_service.go` (the record codec and the record store).
Go strings are Lean strings, a file is the list of its characters, and the library
pieces the store relies on are modelled next to it:

* `strconv.ParseFloat`, `strconv.FormatFloat`, `<` on `float64`, `strings.ToLower` and the
  quicksort that `sort.Slice` runs on more than 12 elements are the fields of a `GoLib`
  record, so every general theorem holds for whatever these functions compute; `dec64` is a
  small executable instance used for concrete runs;
* `encoding/csv` (default settings) is modelled by `csvWrite` and `csvScan`;
* `sort.Slice` is modelled by `sortSlice`.
-/

set_option maxRecDepth 100000

namespace service

/-! ## The record -/

/-- The Go struct `Product`: nine string fields and two `float64` fields. -/
structure Product (F : Type) where
  ProductKey : String
  ProductSubcategoryKey : String
  ProductSKU : String
  ProductName : String
  ModelName : String
  ProductDescription : String
  ProductColor : String
  ProductSize : String
  ProductStyle : String
  ProductCost : F
  ProductPrice : F
deriving DecidableEq, Repr

/-! ## The library -/

/-- The standard-library functions whose results the store only passes on, over a type `F`
of `float64` values: `strconv.ParseFloat(s, 64)` (`none` when it returns an error),
`strconv.FormatFloat(x, 'f', 4, 64)`, the comparison `x < y`, the test for NaN,
`strings.ToLower`, and `pdqsort`: what `sort.Slice` makes of a slice of more than 12 products
with a given comparison (pattern-defeating quicksort, whose order of equal elements is the
library's business). -/
structure GoLib (F : Type) where
  ParseFloat : String → Option F
  FormatFloat : F → String
  less : F → F → Bool
  isNaN : F → Bool
  ToLower : String → String
  pdqsort : (Product F → Product F → Bool) → List (Product F) → List (Product F)

/-- The characters that `FormatFloat(x, 'f', 4, 64)` can produce: digits, a sign, the decimal
point and the letters of `NaN`, `+Inf`, `-Inf`. -/
def floatChar (c : Char) : Bool :=
  c.isDigit || c = '-' || c = '+' || c = '.' || c = 'N' || c = 'a' || c = 'I' || c = 'n' || c = 'f'

/-- The facts about `float64` and `strconv` that the theorems rely on: a formatted number is
made of `floatChar` characters only and parses back, `<` is asymmetric and false on NaN, and
across a value other than NaN "not greater" is transitive. -/
structure GoLib.Lawful {F : Type} (M : GoLib F) : Prop where
  format_chars : ∀ x c, c ∈ (M.FormatFloat x).data → floatChar c = true
  format_parses : ∀ x, (M.ParseFloat (M.FormatFloat x)).isSome = true
  less_asymm : ∀ a b, M.less a b = true → M.less b a = false
  less_nan : ∀ a b, M.isNaN a = true ∨ M.isNaN b = true → M.less a b = false
  not_less_trans : ∀ a b c, M.isNaN b = false →
    M.less b a = false → M.less c b = false → M.less c a = false

/-- The contract of `sort.Slice` on more than 12 elements: it only swaps elements, so the
result is a rearrangement of the slice; and when `less` is a strict weak order on the elements
of the slice (asymmetric, with "not less" transitive), no element of the result is less than
an element before it. -/
structure GoLib.SortLawful {F : Type} (M : GoLib F) : Prop where
  pdqsort_perm : ∀ less s, (M.pdqsort less s).Perm s
  pdqsort_sorted : ∀ less s,
    (∀ a ∈ s, ∀ b ∈ s, less a b = true → less b a = false) →
    (∀ a ∈ s, ∀ b ∈ s, ∀ c ∈ s, less b a = false → less c b = false → less c a = false) →
    (M.pdqsort less s).Pairwise (fun a b => less b a = false)

/-- The parse errors of `encoding/csv`. -/
inductive CsvError
  | ErrBareQuote
  | ErrQuote
  | ErrFieldCount
deriving DecidableEq, Repr

/-- The errors a store operation can return: failures of `os.Open` and `os.Create`, `io.EOF`
from the header read, an `encoding/csv` parse error, a `strconv.ParseFloat` error, and
`errors.New("product not found")`. The last one, `sliceBounds`, is not an error value but the
run-time panic "slice bounds out of range". -/
inductive Error
  | openFailed
  | createFailed
  | EOF
  | csv (e : CsvError)
  | parseFloat
  | productNotFound
  | sliceBounds
deriving DecidableEq, Repr

/-! ## encoding/csv, writer side -/

/-- Go `unicode.IsSpace`. -/
def isSpace (c : Char) : Bool :=
  c = '\t' || c = '\n' || c.toNat = 0x0B || c.toNat = 0x0C || c = '\r' || c = ' ' ||
  c.toNat = 0x85 || c.toNat = 0xA0 || c.toNat = 0x1680 ||
  (0x2000 ≤ c.toNat && c.toNat ≤ 0x200A) || c.toNat = 0x2028 || c.toNat = 0x2029 ||
  c.toNat = 0x202F || c.toNat = 0x205F || c.toNat = 0x3000

/-- The characters that force a field into quotes. -/
def csvSpecial (c : Char) : Bool :=
  c = '\n' || c = '\r' || c = '"' || c = ','

/-- Go `(*csv.Writer).fieldNeedsQuotes` with `Comma = ','`. -/
def fieldNeedsQuotes (field : List Char) : Bool :=
  match field with
  | [] => false
  | c :: _ => decide (field = ['\\', '.']) || field.any csvSpecial || isSpace c

/-- The body of a quoted field: every quote doubled, every other character verbatim
(`UseCRLF` is false). -/
def quoteBody : List Char → List Char
  | [] => []
  | c :: cs => if c = '"' then '"' :: '"' :: quoteBody cs else c :: quoteBody cs

/-- One field as `(*csv.Writer).Write` emits it. -/
def csvField (field : List Char) : List Char :=
  if fieldNeedsQuotes field then '"' :: (quoteBody field ++ ['"']) else field

/-- The fields of a record separated by commas. -/
def csvFields : List (List Char) → List Char
  | [] => []
  | [f] => csvField f
  | f :: g :: fs => csvField f ++ ',' :: csvFields (g :: fs)

/-- Go `(*csv.Writer).Write`: the fields separated by commas, then a line feed. -/
def csvWrite (record : List (List Char)) : List Char :=
  csvFields record ++ ['\n']

/-! ## encoding/csv, reader side -/

/-- What `(*csv.Reader).readLine` does to the text: a carriage return right before a line
feed is dropped, and so is a carriage return that is the very last character of the input. -/
def normalizeLines : List Char → List Char
  | [] => []
  | [c] => if c = '\r' then [] else [c]
  | c :: d :: cs =>
      if c = '\r' ∧ d = '\n' then '\n' :: normalizeLines cs
      else c :: normalizeLines (d :: cs)

/-- What reading does to the content of a field: a carriage return right before a line feed
is dropped. -/
def dropCR : List Char → List Char
  | [] => []
  | [c] => [c]
  | c :: d :: cs =>
      if c = '\r' ∧ d = '\n' then '\n' :: dropCR cs
      else c :: dropCR (d :: cs)

/-- Where the reader stands inside the (line-normalised) text. -/
inductive ReadState
  | recordStart
  | fieldStart (row : List (List Char))
  | unquoted (row : List (List Char)) (cur : List Char)
  | quoted (row : List (List Char)) (cur : List Char)
  | quoteSeen (row : List (List Char)) (cur : List Char)

/-- Put a finished record in front of the records that follow. -/
def emit (row : List (List Char)) (r : List (List (List Char)) × Option CsvError) :
    List (List (List Char)) × Option CsvError :=
  (row :: r.1, r.2)

/-- The records that successive calls of `(*csv.Reader).Read` return (`Comma = ','`, no
comment character, no `LazyQuotes`, no `TrimLeadingSpace`), up to the end of the input
(`none`) or up to the first parse error. Empty lines are skipped; a quote inside an unquoted
field is `ErrBareQuote`; a closing quote followed by anything but a quote, a comma or the end
of the line, and a quoted field that is never closed, are `ErrQuote`. -/
def csvScan : ReadState → List Char → List (List (List Char)) × Option CsvError
  | .recordStart, [] => ([], none)
  | .recordStart, c :: cs =>
      if c = '\n' then csvScan .recordStart cs
      else if c = '"' then csvScan (.quoted [] []) cs
      else if c = ',' then csvScan (.fieldStart [[]]) cs
      else csvScan (.unquoted [] [c]) cs
  | .fieldStart row, [] => ([row ++ [[]]], none)
  | .fieldStart row, c :: cs =>
      if c = '\n' then emit (row ++ [[]]) (csvScan .recordStart cs)
      else if c = '"' then csvScan (.quoted row []) cs
      else if c = ',' then csvScan (.fieldStart (row ++ [[]])) cs
      else csvScan (.unquoted row [c]) cs
  | .unquoted row cur, [] => ([row ++ [cur]], none)
  | .unquoted row cur, c :: cs =>
      if c = '\n' then emit (row ++ [cur]) (csvScan .recordStart cs)
      else if c = ',' then csvScan (.fieldStart (row ++ [cur])) cs
      else if c = '"' then ([], some .ErrBareQuote)
      else csvScan (.unquoted row (cur ++ [c])) cs
  | .quoted _ _, [] => ([], some .ErrQuote)
  | .quoted row cur, c :: cs =>
      if c = '"' then csvScan (.quoteSeen row cur) cs
      else csvScan (.quoted row (cur ++ [c])) cs
  | .quoteSeen row cur, [] => ([row ++ [cur]], none)
  | .quoteSeen row cur, c :: cs =>
      if c = '"' then csvScan (.quoted row (cur ++ ['"'])) cs
      else if c = ',' then csvScan (.fieldStart (row ++ [cur])) cs
      else if c = '\n' then emit (row ++ [cur]) (csvScan .recordStart cs)
      else ([], some .ErrQuote)

/-- All records of a file, as the reader delivers them one `Read` after the other. -/
def csvRecords (text : List Char) : List (List (List Char)) × Option CsvError :=
  csvScan .recordStart (normalizeLines text)

/-! ## The file -/

/-- The backing file: its content (`none` when `os.Open` fails, for instance because the file
does not exist) and whether `os.Create` on its path succeeds. -/
structure Disk where
  content : Option (List Char)
  writable : Bool
deriving DecidableEq, Repr

/-- The header row that `WriteProducts` writes. -/
def header : List String :=
  ["ProductKey", "ProductSubcategoryKey", "ProductSKU", "ProductName",
   "ModelName", "ProductDescription", "ProductColor", "ProductSize",
   "ProductStyle", "ProductCost", "ProductPrice"]

/-! ## The record codec -/

/-- The loop of `ReadProducts` over the records after the header. `n` is the field count of
the header, which the reader demands of every later record (`FieldsPerRecord = 0`); `e` is
what the reader reports after the last record; `products` is the slice built so far. -/
def readLoop {F : Type} (M : GoLib F) (n : Nat) (e : Option CsvError) :
    List (List (List Char)) → List (Product F) → Except Error (List (Product F))
  | [], products =>
      match e with
      | none => .ok products
      | some err => .error (.csv err)
  | record :: rest, products =>
      if record.length ≠ n then .error (.csv .ErrFieldCount)
      else if record.length < 11 then readLoop M n e rest products
      else
        match M.ParseFloat (String.mk (record.getD 9 [])) with
        | none => .error .parseFloat
        | some cost =>
          match M.ParseFloat (String.mk (record.getD 10 [])) with
          | none => .error .parseFloat
          | some price =>
            readLoop M n e rest (products ++ [{
              ProductKey := String.mk (record.getD 0 [])
              ProductSubcategoryKey := String.mk (record.getD 1 [])
              ProductSKU := String.mk (record.getD 2 [])
              ProductName := String.mk (record.getD 3 [])
              ModelName := String.mk (record.getD 4 [])
              ProductDescription := String.mk (record.getD 5 [])
              ProductColor := String.mk (record.getD 6 [])
              ProductSize := String.mk (record.getD 7 [])
              ProductStyle := String.mk (record.getD 8 [])
              ProductCost := cost
              ProductPrice := price }])

/-- Decode a file content: skip the header, then run the loop. -/
def decode {F : Type} (M : GoLib F) (text : List Char) : Except Error (List (Product F)) :=
  match csvRecords text with
  | ([], none) => .error .EOF
  | ([], some err) => .error (.csv err)
  | (hdr :: records, e) => readLoop M hdr.length e records []

/-- Go `ReadProducts`. -/
def ReadProducts {F : Type} (M : GoLib F) (disk : Disk) : Except Error (List (Product F)) :=
  match disk.content with
  | none => .error .openFailed
  | some text => decode M text

/-- The eleven fields that `WriteProducts` writes for one product. -/
def productRecord {F : Type} (M : GoLib F) (product : Product F) : List (List Char) :=
  [product.ProductKey.data, product.ProductSubcategoryKey.data, product.ProductSKU.data,
   product.ProductName.data, product.ModelName.data, product.ProductDescription.data,
   product.ProductColor.data, product.ProductSize.data, product.ProductStyle.data,
   (M.FormatFloat product.ProductCost).data, (M.FormatFloat product.ProductPrice).data]

/-- A string as the reader returns it after the writer wrote it: every carriage return
right before a line feed is gone. -/
def dropCRs (s : String) : String :=
  String.mk (dropCR s.data)

/-- The rows that `WriteProducts` writes after the header. -/
def encodeRows {F : Type} (M : GoLib F) : List (Product F) → List Char
  | [] => []
  | product :: rest => csvWrite (productRecord M product) ++ encodeRows M rest

/-- The file content that `WriteProducts` produces. -/
def encode {F : Type} (M : GoLib F) (products : List (Product F)) : List Char :=
  csvWrite (header.map String.data) ++ encodeRows M products

/-- Go `WriteProducts`: the new state of the file and the returned error (`none` is `nil`). -/
def WriteProducts {F : Type} (M : GoLib F) (disk : Disk) (products : List (Product F)) :
    Disk × Option Error :=
  if disk.writable then ({ disk with content := some (encode M products) }, none)
  else (disk, some .createFailed)

/-! ## The record store -/

/-- Go `AddProduct`. -/
def AddProduct {F : Type} (M : GoLib F) (disk : Disk) (newProduct : Product F) :
    Disk × Option Error :=
  match ReadProducts M disk with
  | .error err => (disk, some err)
  | .ok products => WriteProducts M disk (products ++ [newProduct])

/-- The loop of `GetProductByID`. -/
def findByID {F : Type} (id : String) : List (Product F) → Except Error (Product F)
  | [] => .error .productNotFound
  | product :: rest => if product.ProductKey = id then .ok product else findByID id rest

/-- Go `GetProductByID`. -/
def GetProductByID {F : Type} (M : GoLib F) (disk : Disk) (id : String) :
    Except Error (Product F) :=
  match ReadProducts M disk with
  | .error err => .error err
  | .ok products => findByID id products

/-- The loop of `UpdateProduct`: the slice with the first product whose key is `id` replaced,
or `none` when the loop runs to its end. -/
def replaceFirst {F : Type} (id : String) (updatedProduct : Product F) :
    List (Product F) → Option (List (Product F))
  | [] => none
  | product :: rest =>
      if product.ProductKey = id then some (updatedProduct :: rest)
      else (replaceFirst id updatedProduct rest).map (fun l => product :: l)

/-- Go `UpdateProduct`. -/
def UpdateProduct {F : Type} (M : GoLib F) (disk : Disk) (id : String)
    (updatedProduct : Product F) : Disk × Option Error :=
  match ReadProducts M disk with
  | .error err => (disk, some err)
  | .ok products =>
    match replaceFirst id updatedProduct products with
    | some products => WriteProducts M disk products
    | none => (disk, some .productNotFound)

/-- The loop of `DeleteProduct`, appending every product whose key differs from `id`. -/
def removeByID {F : Type} (id : String) : List (Product F) → List (Product F) → List (Product F)
  | [], updatedProducts => updatedProducts
  | product :: rest, updatedProducts =>
      if product.ProductKey ≠ id then removeByID id rest (updatedProducts ++ [product])
      else removeByID id rest updatedProducts

/-- Go `DeleteProduct`. -/
def DeleteProduct {F : Type} (M : GoLib F) (disk : Disk) (id : String) : Disk × Option Error :=
  match ReadProducts M disk with
  | .error err => (disk, some err)
  | .ok products =>
    let updatedProducts := removeByID id products []
    if updatedProducts.length = products.length then (disk, some .productNotFound)
    else WriteProducts M disk updatedProducts

/-! ## Listing: filter, sort, paginate -/

/-- Go `strings.Contains` on character lists. -/
def contains (s substr : List Char) : Bool :=
  match s with
  | [] => substr.isEmpty
  | c :: cs => substr.isPrefixOf (c :: cs) || contains cs substr

/-- Go `matchesFilter`. -/
def matchesFilter {F : Type} (M : GoLib F) (product : Product F) (filter : String) : Bool :=
  let filter := M.ToLower filter
  contains (M.ToLower product.ProductName).data filter.data ||
  contains (M.ToLower product.ProductDescription).data filter.data ||
  contains (M.ToLower product.ProductColor).data filter.data ||
  contains (M.ToLower product.ProductStyle).data filter.data

/-- The inner loop of the library insertion sort: `x` sits right after the sorted prefix,
given back to front, and moves left while it is less than its left neighbour. -/
def insertBack {α : Type} (less : α → α → Bool) (x : α) : List α → List α
  | [] => [x]
  | y :: ys => if less x y then y :: insertBack less x ys else x :: y :: ys

/-- The library insertion sort (`insertionSortLessFunc`), left to right. -/
def insertionSort {α : Type} (less : α → α → Bool) (s : List α) : List α :=
  (s.foldl (fun sorted x => insertBack less x sorted) []).reverse

/-- Go `sort.Slice(s, less)` on a slice of products (Go 1.19 and later): insertion sort on at
most 12 elements, pattern-defeating quicksort on more. -/
def sortSlice {F : Type} (M : GoLib F) (less : Product F → Product F → Bool)
    (s : List (Product F)) : List (Product F) :=
  if s.length ≤ 12 then insertionSort less s else M.pdqsort less s

/-- Go `sortProducts`. -/
def sortProducts {F : Type} (M : GoLib F) (products : List (Product F)) (sortBy : String) :
    List (Product F) :=
  if sortBy = "price" then
    sortSlice M (fun a b => M.less a.ProductPrice b.ProductPrice) products
  else if sortBy = "name" then
    sortSlice M (fun a b => decide (a.ProductName < b.ProductName)) products
  else
    sortSlice M (fun a b => decide (a.ProductKey < b.ProductKey)) products

/-- Go `int` arithmetic: the result of an operation reduced to 64-bit two's complement. -/
def wrap64 (x : Int) : Int :=
  (x + 2 ^ 63) % 2 ^ 64 - 2 ^ 63

/-- The filter step of `GetProducts`. -/
def filterProducts {F : Type} (M : GoLib F) (filter : String) (products : List (Product F)) :
    List (Product F) :=
  if filter ≠ "" then products.filter (fun product => matchesFilter M product filter)
  else products

/-- The pagination step of `GetProducts` on the filtered and sorted slice; slicing with
`start < 0` or `end < start` panics. -/
def paginate {F : Type} (products : List (Product F)) (page pageSize : Int) :
    Except Error (List (Product F)) :=
  let start := wrap64 (wrap64 (page - 1) * pageSize)
  let stop := wrap64 (start + pageSize)
  if start > products.length then .ok []
  else
    let stop := if stop > products.length then (products.length : Int) else stop
    if 0 ≤ start ∧ start ≤ stop then
      .ok ((products.drop start.toNat).take (stop - start).toNat)
    else .error .sliceBounds

/-- Go `GetProducts`. -/
def GetProducts {F : Type} (M : GoLib F) (disk : Disk) (page pageSize : Int)
    (filter sort : String) : Except Error (List (Product F)) :=
  match ReadProducts M disk with
  | .error err => .error err
  | .ok products =>
    paginate (sortProducts M (filterProducts M filter products) sort) page pageSize

/-! ## An executable instance of the library functions

`dec64` computes with exact decimal numbers. It agrees with Go on plain decimal text
(an optional sign, digits, an optional fraction) whose value is a short decimal, and on
`NaN`; exponents, hexadecimal floats, infinities and binary rounding are left out. It is
used only to run the store on concrete files. -/

/-- A decimal number `m / 10 ^ e` (with `m` not divisible by 10 unless `e = 0`), or NaN. -/
inductive Dec64
  | nan
  | num (m : Int) (e : Nat)
deriving DecidableEq, Repr

/-- Strip trailing zeros of the fraction. -/
def Dec64.canon : Int → Nat → Dec64
  | m, 0 => .num m 0
  | m, e + 1 => if m % 10 = 0 then Dec64.canon (m / 10) e else .num m (e + 1)

/-- The value of a string of decimal digits. -/
def digitsVal (ds : List Char) : Nat :=
  ds.foldl (fun n c => 10 * n + (c.toNat - 48)) 0

/-- Split an optional sign off the front. -/
def splitSign : List Char → Bool × List Char
  | '-' :: t => (true, t)
  | '+' :: t => (false, t)
  | s => (false, s)

/-- The number after the sign: digits and an optional fraction, with at least one digit. -/
def Dec64.parseBody (sign : Int) (body : List Char) : Option Dec64 :=
  let ip := body.takeWhile Char.isDigit
  match body.dropWhile Char.isDigit with
  | [] => if ip.isEmpty then none else some (Dec64.canon (sign * digitsVal ip) 0)
  | c :: fp =>
      if c = '.' ∧ fp.all Char.isDigit = true ∧ ¬ (ip.isEmpty = true ∧ fp.isEmpty = true) then
        some (Dec64.canon (sign * digitsVal (ip ++ fp)) fp.length)
      else none

/-- The instance of `strconv.ParseFloat`: `NaN` in any letter case, or an optional sign, digits
and an optional fraction, with at least one digit. -/
def Dec64.parse (s : List Char) : Option Dec64 :=
  if s.map Char.toLower = ['n', 'a', 'n'] then some .nan
  else Dec64.parseBody (if (splitSign s).1 then -1 else 1) (splitSign s).2

/-- Round `a / b` to the nearest integer, ties to even. -/
def roundHalfEven (a b : Nat) : Nat :=
  let q := a / b
  let r := a % b
  if 2 * r < b then q
  else if b < 2 * r then q + 1
  else if q % 2 = 0 then q else q + 1

/-- The instance of `strconv.FormatFloat(x, 'f', 4, 64)`. -/
def Dec64.format : Dec64 → List Char
  | .nan => ['N', 'a', 'N']
  | .num m e =>
      let n := roundHalfEven (m.natAbs * 10 ^ 4) (10 ^ e)
      (if m < 0 then ['-'] else []) ++ Nat.toDigits 10 (n / 10 ^ 4) ++
        ['.', Nat.digitChar (n / 1000 % 10), Nat.digitChar (n / 100 % 10),
         Nat.digitChar (n / 10 % 10), Nat.digitChar (n % 10)]

/-- The instance of `x < y`. -/
def Dec64.less : Dec64 → Dec64 → Bool
  | .num m e, .num m2 e2 => decide (m * 10 ^ e2 < m2 * 10 ^ e)
  | _, _ => false

/-- The instance of the NaN test. -/
def Dec64.isNaN : Dec64 → Bool
  | .nan => true
  | .num _ _ => false

/-- The executable instance of the library functions; `ToLower` lower-cases the letters
`A` to `Z` and leaves every other character as it is; above 12 elements the instance sorts by
insertion as well, which need not be the order of the library. The concrete runs below stay
on at most 12 elements. -/
def dec64 : GoLib Dec64 where
  ParseFloat := fun s => Dec64.parse s.data
  FormatFloat := fun x => String.mk (Dec64.format x)
  less := Dec64.less
  isNaN := Dec64.isNaN
  ToLower := fun s => String.mk (s.data.map Char.toLower)
  pdqsort := fun less s => insertionSort less s

/-! ## A client loop and concrete data -/

/-- The loop a client runs to fetch a whole listing: request `page`, `page + 1`, ... and
concatenate the results up to, and not including, the first page that comes back empty.
`fuel` bounds the number of requests; `none` means the bound was reached first. -/
def collectPages {α : Type} (get : Int → Except Error (List α)) :
    Nat → Int → Option (Except Error (List α))
  | 0, _ => none
  | fuel + 1, page =>
      match get page with
      | .error err => some (.error err)
      | .ok [] => some (.ok [])
      | .ok (x :: xs) =>
          match collectPages get fuel (page + 1) with
          | some (.ok rest) => some (.ok (x :: xs ++ rest))
          | other => other

/-- The record `{P1, 30, Bike}` of the concrete scenarios. -/
def bike : Product Dec64 :=
  ⟨"P1", "1", "BK-1", "Bike", "Road", "Road bike", "Red", "52", "U", .num 20 0, .num 30 0⟩

/-- The record `{P2, 10, Lock}` of the concrete scenarios. -/
def lock : Product Dec64 :=
  ⟨"P2", "2", "LK-1", "Lock", "Cable", "Cable lock", "Black", "S", "U", .num 5 0, .num 10 0⟩

/-- A second record with the key `P1`. -/
def helmet : Product Dec64 :=
  ⟨"P1", "3", "HL-1", "Helmet", "Sport", "Road helmet", "Blue", "M", "U", .num 15 0, .num 25 0⟩

/-- The stored dataset `[{P1, 30, Bike}, {P2, 10, Lock}]` of the concrete scenarios. -/
def twoRecords : Disk :=
  ⟨some (encode dec64 [bike, lock]), true⟩

/-- A record whose key holds two carriage returns and a line feed. -/
def noteCR : Product Dec64 :=
  ⟨"A\r\r\nB", "5", "NT-2", "Memo", "Plain", "Paper memo", "White", "S", "U", .num 3 0, .num 4 0⟩

/-- A record with price 3. -/
def tube : Product Dec64 :=
  ⟨"T1", "6", "TB-1", "Tube", "Butyl", "Inner tube", "Black", "M", "U", .num 2 0, .num 3 0⟩

/-- A record whose price is NaN, as `ReadProducts` loads it from a row with price `NaN`. -/
def pump : Product Dec64 :=
  ⟨"T2", "6", "PM-1", "Pump", "Mini", "Hand pump", "Silver", "S", "U", .num 7 0, .nan⟩

/-- A record with price 1. -/
def bell : Product Dec64 :=
  ⟨"T3", "6", "BL-1", "Bell", "Ring", "Brass bell", "Gold", "S", "U", .num 1 1, .num 1 0⟩

/-- The stored dataset `[tube, pump, bell]`, with prices 3, NaN and 1. -/
def nanStore : Disk :=
  ⟨some (encode dec64 [tube, pump, bell]), true⟩

/-- A file with the 11-column header, then a data row of two fields, then the row of
`bike`. -/
def shortRowStore : Disk :=
  ⟨some (csvWrite (header.map String.data) ++ "P9,broken\n".data ++ encodeRows dec64 [bike]),
    true⟩

/-- A file with the 11-column header, the row of `bike`, and a row of 11 fields whose price is
the text `abc`. -/
def badPriceStore : Disk :=
  ⟨some (encode dec64 [bike] ++ "P5,7,CH-1,Chain,Link,Steel chain,Grey,M,U,9.5,abc\n".data),
    true⟩

/-- A record that violates every rule of `ValidateProduct`: all strings empty, cost zero,
price negative. -/
def blank : Product Dec64 :=
  ⟨"", "", "", "", "", "", "", "", "", .num 0 0, .num (-1) 0⟩

/-- A source file of one data row, as the store writes it for `noteCR`: the key stands in the
text as `"A\r\r\nB"`, which the reader takes for the field value `A\r\nB`. -/
def crlfSource : List Char :=
  encode dec64 [noteCR]

/-! ## The round trip of a row, as claimed and as read -/

/-- A cost or price column after decoding and encoding: the text parsed, then formatted
with 4 decimals. -/
def renumber {F : Type} (M : GoLib F) (f : List Char) : List Char :=
  match M.ParseFloat (String.mk f) with
  | some x => (M.FormatFloat x).data
  | none => f

/-- The row that the round-trip claim expects for a row of the source: the nine strings as
they are, cost and price renumbered. -/
def rowAsClaimed {F : Type} (M : GoLib F) (row : List (List Char)) : List (List Char) :=
  [row.getD 0 [], row.getD 1 [], row.getD 2 [], row.getD 3 [], row.getD 4 [], row.getD 5 [],
   row.getD 6 [], row.getD 7 [], row.getD 8 [],
   renumber M (row.getD 9 []), renumber M (row.getD 10 [])]

/-- The row that the reader finds in the rewritten file: in the nine strings a carriage return
right before a line feed is gone, cost and price are renumbered. -/
def rowAsReread {F : Type} (M : GoLib F) (row : List (List Char)) : List (List Char) :=
  [dropCR (row.getD 0 []), dropCR (row.getD 1 []), dropCR (row.getD 2 []),
   dropCR (row.getD 3 []), dropCR (row.getD 4 []), dropCR (row.getD 5 []),
   dropCR (row.getD 6 []), dropCR (row.getD 7 []), dropCR (row.getD 8 []),
   renumber M (row.getD 9 []), renumber M (row.getD 10 [])]

/-- The bounds that `GetProducts` hands to the slice expression `products[start:end]` for a
slice of length `len`: `none` when it returns early because `start > len`. -/
def pageBounds (len : Nat) (page pageSize : Int) : Option (Int × Int) :=
  let start := wrap64 (wrap64 (page - 1) * pageSize)
  let stop := wrap64 (start + pageSize)
  if start > len then none
  else some (start, if stop > len then (len : Int) else stop)

/-- Go `strconv.Atoi` for the 64-bit `int`: an optional sign and then decimal digits, at
least one; `none` stands for a syntax error or a value out of range. -/
def Atoi (s : String) : Option Int :=
  let body := (splitSign s.data).2
  let n : Int := if (splitSign s.data).1 then -(digitsVal body : Int) else (digitsVal body : Int)
  if body.isEmpty = true ∨ body.all Char.isDigit = false then none
  else if n < -(2 ^ 63) ∨ 2 ^ 63 ≤ n then none
  else some n

end service

/-! ## The validation of `model/product.go` -/

namespace model

open service

/-- Go `ValidateProduct`, read off the `validate` tags of `model.Product`: every string field
is `required` (and `min=1`), so it must not be empty; cost and price are `required,gt=0`, so
they must be greater than zero. `true` stands for a `nil` error. The fields of
`model.Product` are those of `service.Product`. -/
def ValidateProduct {F : Type} (M : GoLib F) (zero : F) (product : Product F) : Bool :=
  decide (product.ProductKey ≠ "") && decide (product.ProductSubcategoryKey ≠ "") &&
  decide (product.ProductSKU ≠ "") && decide (product.ProductName ≠ "") &&
  decide (product.ModelName ≠ "") && decide (product.ProductDescription ≠ "") &&
  decide (product.ProductColor ≠ "") && decide (product.ProductSize ≠ "") &&
  decide (product.ProductStyle ≠ "") &&
  M.less zero product.ProductCost && M.less zero product.ProductPrice

end model

/-! ## The handlers of `handler/product.go` -/

namespace handler

open service

/-- What a handler writes as the body of its response. -/
inductive Body (F : Type)
  | invalidInput
  | failure (err : Error)
  | product (p : Product F)
  | products (ps : List (Product F))
  | empty
deriving DecidableEq, Repr

/-- The response of a handler: the HTTP status and the body. -/
structure Response (F : Type) where
  status : Nat
  body : Body F
deriving DecidableEq, Repr

/-- Go `CreateProduct`. `body` is what `c.BindJSON(&newProduct)` decoded into a
`service.Product`, `none` when it returned an error; `service.Product` carries no binding tags,
so decoding checks the JSON syntax and the field types only. -/
def CreateProduct {F : Type} (M : GoLib F) (disk : Disk) (body : Option (Product F)) :
    Disk × Response F :=
  match body with
  | none => (disk, ⟨400, .invalidInput⟩)
  | some newProduct =>
    match AddProduct M disk newProduct with
    | (disk, some err) => (disk, ⟨500, .failure err⟩)
    | (disk, none) => (disk, ⟨201, .product newProduct⟩)

/-- The `page` that the list handler passes to the store. -/
def pageOf (pageStr : String) : Int :=
  match Atoi pageStr with
  | none => 1
  | some page => if page < 1 then 1 else page

/-- The `pageSize` that the list handler passes to the store. -/
def pageSizeOf (pageSizeStr : String) : Int :=
  match Atoi pageSizeStr with
  | none => 10
  | some pageSize => if pageSize < 1 then 10 else pageSize

/-- Go `GetProducts` (the handler). A panic of the store is caught by the recovery middleware
that `main` installs, which answers 500 without a body. -/
def GetProducts {F : Type} (M : GoLib F) (disk : Disk)
    (pageStr pageSizeStr filter sort : String) : Response F :=
  match service.GetProducts M disk (pageOf pageStr) (pageSizeOf pageSizeStr) filter sort with
  | .error .sliceBounds => ⟨500, .empty⟩
  | .error err => ⟨500, .failure err⟩
  | .ok products => ⟨200, .products products⟩

/-- Go `GetProductByID` (the handler). -/
def GetProductByID {F : Type} (M : GoLib F) (disk : Disk) (id : String) : Response F :=
  match service.GetProductByID M disk id with
  | .error err => ⟨404, .failure err⟩
  | .ok product => ⟨200, .product product⟩

/-- Go `UpdateProduct` (the handler). -/
def UpdateProduct {F : Type} (M : GoLib F) (disk : Disk) (id : String)
    (body : Option (Product F)) : Disk × Response F :=
  match body with
  | none => (disk, ⟨400, .invalidInput⟩)
  | some updatedProduct =>
    match service.UpdateProduct M disk id updatedProduct with
    | (disk, some err) =>
        if err = .productNotFound then (disk, ⟨404, .failure err⟩)
        else (disk, ⟨500, .failure err⟩)
    | (disk, none) => (disk, ⟨200, .product updatedProduct⟩)

/-- Go `DeleteProduct` (the handler). -/
def DeleteProduct {F : Type} (M : GoLib F) (disk : Disk) (id : String) : Disk × Response F :=
  match service.DeleteProduct M disk id with
  | (disk, some err) =>
      if err = .productNotFound then (disk, ⟨404, .failure err⟩)
      else (disk, ⟨500, .failure err⟩)
  | (disk, none) => (disk, ⟨204, .empty⟩)

end handler

namespace service

/-! ## The reader undoes the writer -/

theorem dropCR_cons_of_ne (c : Char) (cs : List Char) (h : c ≠ '\r') :
    dropCR (c :: cs) = c :: dropCR cs := by
  cases cs with
  | nil => simp [dropCR]
  | cons d ds => simp [dropCR, h]

theorem normalizeLines_cons_of_ne (c : Char) (cs : List Char) (h : c ≠ '\r') :
    normalizeLines (c :: cs) = c :: normalizeLines cs := by
  cases cs with
  | nil => simp [normalizeLines, h]
  | cons d ds => simp [normalizeLines, h]

/-- In front of a character that is not a line feed, line normalisation acts on a prefix as
`dropCR` does. -/
theorem normalizeLines_append (u : List Char) (c : Char) (v : List Char) (hc : c ≠ '\n') :
    normalizeLines (u ++ c :: v) = dropCR u ++ normalizeLines (c :: v) := by
  induction u using dropCR.induct with
  | case1 => simp [dropCR]
  | case2 a =>
    by_cases ha : a = '\r'
    · subst ha
      simp [dropCR, normalizeLines, hc]
    · simp [dropCR, normalizeLines_cons_of_ne _ _ ha]
  | case3 a d cs h ih =>
    obtain ⟨rfl, rfl⟩ := h
    simpa [normalizeLines, dropCR] using ih
  | case4 a d cs h ih =>
    simp only [List.cons_append] at ih ⊢
    rw [normalizeLines, if_neg h, ih, dropCR, if_neg h]
    simp

theorem normalizeLines_plain (u v : List Char) (hu : u.any csvSpecial = false) :
    normalizeLines (u ++ v) = u ++ normalizeLines v := by
  induction u with
  | nil => rfl
  | cons a u ih =>
    simp only [List.any_cons, Bool.or_eq_false_iff] at hu
    have ha : a ≠ '\r' := by
      rintro rfl
      simp [csvSpecial] at hu
    rw [List.cons_append, normalizeLines_cons_of_ne _ _ ha, ih hu.2, List.cons_append]

theorem dropCR_plain (u : List Char) (hu : u.any csvSpecial = false) : dropCR u = u := by
  induction u with
  | nil => rfl
  | cons a u ih =>
    simp only [List.any_cons, Bool.or_eq_false_iff] at hu
    have ha : a ≠ '\r' := by
      rintro rfl
      simp [csvSpecial] at hu
    rw [dropCR_cons_of_ne _ _ ha, ih hu.2]

theorem any_csvSpecial_dropCR (f : List Char) :
    (dropCR f).any csvSpecial = f.any csvSpecial := by
  induction f using dropCR.induct with
  | case1 => rfl
  | case2 a => rfl
  | case3 a d cs h _ =>
    obtain ⟨rfl, rfl⟩ := h
    simp [dropCR, csvSpecial]
  | case4 a d cs h ih =>
    rw [dropCR, if_neg h, List.any_cons, ih]
    simp

theorem fieldNeedsQuotes_dropCR (f : List Char) :
    fieldNeedsQuotes (dropCR f) = fieldNeedsQuotes f := by
  cases hsp : f.any csvSpecial with
  | false => rw [dropCR_plain f hsp]
  | true =>
    have h2 : (dropCR f).any csvSpecial = true := by rw [any_csvSpecial_dropCR, hsp]
    have q : ∀ g : List Char, g.any csvSpecial = true → fieldNeedsQuotes g = true := by
      intro g hg
      cases g with
      | nil => simp at hg
      | cons c cs => simp only [fieldNeedsQuotes, hg, Bool.or_true, Bool.true_or]
    rw [q _ h2, q _ hsp]

theorem quoteBody_head_ne (d : Char) (cs : List Char) (hd : d ≠ '\n') :
    ∃ x rest, quoteBody (d :: cs) = x :: rest ∧ x ≠ '\n' := by
  by_cases h : d = '"'
  · subst h
    exact ⟨'"', '"' :: quoteBody cs, by simp [quoteBody], by decide⟩
  · exact ⟨d, quoteBody cs, by simp [quoteBody, h], hd⟩

theorem dropCR_quoteBody (f : List Char) : dropCR (quoteBody f) = quoteBody (dropCR f) := by
  induction f using dropCR.induct with
  | case1 => rfl
  | case2 a =>
    by_cases h : a = '"'
    · subst h
      simp [quoteBody, dropCR]
    · simp [quoteBody, dropCR, h]
  | case3 a d cs h ih =>
    obtain ⟨rfl, rfl⟩ := h
    simp [quoteBody, dropCR, ih]
  | case4 a d cs h ih =>
    rw [dropCR, if_neg h]
    by_cases ha : a = '"'
    · subst ha
      have e : quoteBody ('"' :: d :: cs) = '"' :: '"' :: quoteBody (d :: cs) := by
        simp [quoteBody]
      have e2 : quoteBody ('"' :: dropCR (d :: cs)) = '"' :: '"' :: quoteBody (dropCR (d :: cs)) := by
        simp [quoteBody]
      rw [e, e2, dropCR_cons_of_ne _ _ (by decide), dropCR_cons_of_ne _ _ (by decide), ih]
    · have e : quoteBody (a :: d :: cs) = a :: quoteBody (d :: cs) := by
        simp [quoteBody, ha]
      have e2 : quoteBody (a :: dropCR (d :: cs)) = a :: quoteBody (dropCR (d :: cs)) := by
        simp [quoteBody, ha]
      rw [e, e2, ← ih]
      by_cases hr : a = '\r'
      · have hd : d ≠ '\n' := fun hd => h ⟨hr, hd⟩
        obtain ⟨x, rest, hx, hxn⟩ := quoteBody_head_ne d cs hd
        rw [hx, dropCR, if_neg (fun hh => hxn hh.2)]
      · rw [dropCR_cons_of_ne _ _ hr]

/-- Line normalisation of a written field followed by a separator. -/
theorem normalizeLines_csvField (f : List Char) (c : Char) (w : List Char)
    (hc : c = ',' ∨ c = '\n') :
    normalizeLines (csvField f ++ c :: w) = csvField (dropCR f) ++ c :: normalizeLines w := by
  have hcr : c ≠ '\r' := by rcases hc with rfl | rfl <;> decide
  unfold csvField
  rw [fieldNeedsQuotes_dropCR]
  cases hq : fieldNeedsQuotes f with
  | true =>
    simp only [if_true, List.cons_append, List.append_assoc, List.singleton_append]
    rw [normalizeLines_cons_of_ne _ _ (by decide),
      normalizeLines_append _ _ _ (by decide), normalizeLines_cons_of_ne _ _ (by decide),
      List.nil_append, normalizeLines_cons_of_ne _ _ hcr, dropCR_quoteBody, List.nil_append]
  | false =>
    have hsp : f.any csvSpecial = false := by
      cases f with
      | nil => rfl
      | cons a cs =>
        simp only [fieldNeedsQuotes, Bool.or_eq_false_iff] at hq
        exact hq.1.2
    simp only [Bool.false_eq_true, if_false]
    rw [normalizeLines_plain _ _ hsp, normalizeLines_cons_of_ne _ _ hcr, dropCR_plain _ hsp]

theorem normalizeLines_csvFields (row : List (List Char)) (w : List Char) :
    normalizeLines (csvFields row ++ '\n' :: w) =
      csvFields (row.map dropCR) ++ '\n' :: normalizeLines w := by
  induction row using csvFields.induct with
  | case1 => simp [csvFields, normalizeLines_cons_of_ne]
  | case2 f => simpa [csvFields] using normalizeLines_csvField f '\n' w (Or.inr rfl)
  | case3 f g fs ih =>
    simp only [csvFields, List.map_cons, List.append_assoc, List.cons_append] at ih ⊢
    rw [normalizeLines_csvField f ',' _ (Or.inl rfl), ih]

/-- Line normalisation of a written record. -/
theorem normalizeLines_csvWrite (row : List (List Char)) (w : List Char) :
    normalizeLines (csvWrite row ++ w) = csvWrite (row.map dropCR) ++ normalizeLines w := by
  simp only [csvWrite, List.append_assoc, List.singleton_append]
  exact normalizeLines_csvFields row w

end service

namespace service

theorem csvScan_unquoted_plain (row : List (List Char)) (u cur rest : List Char)
    (hu : u.any csvSpecial = false) :
    csvScan (.unquoted row cur) (u ++ rest) = csvScan (.unquoted row (cur ++ u)) rest := by
  induction u generalizing cur with
  | nil => simp
  | cons a u ih =>
    simp only [List.any_cons, Bool.or_eq_false_iff] at hu
    have h1 : a ≠ '\n' := by rintro rfl; simp [csvSpecial] at hu
    have h2 : a ≠ ',' := by rintro rfl; simp [csvSpecial] at hu
    have h3 : a ≠ '"' := by rintro rfl; simp [csvSpecial] at hu
    rw [List.cons_append, csvScan, if_neg h1, if_neg h2, if_neg h3, ih _ hu.2]
    simp

theorem csvScan_quoted_body (row : List (List Char)) (f cur rest : List Char) :
    csvScan (.quoted row cur) (quoteBody f ++ '"' :: rest) =
      csvScan (.quoteSeen row (cur ++ f)) rest := by
  induction f generalizing cur with
  | nil => simp [quoteBody, csvScan]
  | cons a f ih =>
    by_cases h : a = '"'
    · subst h
      have e : quoteBody ('"' :: f) = '"' :: '"' :: quoteBody f := by simp [quoteBody]
      rw [e, List.cons_append, List.cons_append, csvScan, if_pos rfl, csvScan, if_pos rfl, ih]
      simp
    · have e : quoteBody (a :: f) = a :: quoteBody f := by simp [quoteBody, h]
      rw [e, List.cons_append, csvScan, if_neg h, ih]
      simp

theorem not_special_of_unquoted (a : Char) (cs : List Char)
    (hq : fieldNeedsQuotes (a :: cs) = false) :
    a ≠ '\n' ∧ a ≠ ',' ∧ a ≠ '"' ∧ cs.any csvSpecial = false := by
  simp only [fieldNeedsQuotes, Bool.or_eq_false_iff, List.any_cons] at hq
  obtain ⟨⟨-, ha, hcs⟩, -⟩ := hq
  refine ⟨?_, ?_, ?_, hcs⟩ <;> rintro rfl <;> simp [csvSpecial] at ha

theorem csvScan_field_comma (row : List (List Char)) (f rest : List Char) :
    csvScan (.fieldStart row) (csvField f ++ ',' :: rest) =
      csvScan (.fieldStart (row ++ [f])) rest := by
  unfold csvField
  cases hq : fieldNeedsQuotes f with
  | true =>
    simp only [if_true, List.cons_append, List.append_assoc, List.singleton_append]
    rw [csvScan, if_neg (by decide), if_pos rfl, csvScan_quoted_body, List.nil_append,
      List.nil_append, csvScan,
      if_neg (by decide), if_pos rfl]
  | false =>
    simp only [Bool.false_eq_true, if_false]
    cases f with
    | nil => simp [csvScan]
    | cons a cs =>
      obtain ⟨h1, h2, h3, hcs⟩ := not_special_of_unquoted a cs hq
      rw [List.cons_append, csvScan, if_neg h1, if_neg h3, if_neg h2,
        csvScan_unquoted_plain _ _ _ _ hcs, csvScan, if_neg (by decide), if_pos rfl]
      simp

theorem csvScan_field_newline (row : List (List Char)) (f rest : List Char) :
    csvScan (.fieldStart row) (csvField f ++ '\n' :: rest) =
      emit (row ++ [f]) (csvScan .recordStart rest) := by
  unfold csvField
  cases hq : fieldNeedsQuotes f with
  | true =>
    simp only [if_true, List.cons_append, List.append_assoc, List.singleton_append]
    rw [csvScan, if_neg (by decide), if_pos rfl, csvScan_quoted_body, List.nil_append,
      List.nil_append, csvScan,
      if_neg (by decide), if_neg (by decide), if_pos rfl]
  | false =>
    simp only [Bool.false_eq_true, if_false]
    cases f with
    | nil => simp [csvScan]
    | cons a cs =>
      obtain ⟨h1, h2, h3, hcs⟩ := not_special_of_unquoted a cs hq
      rw [List.cons_append, csvScan, if_neg h1, if_neg h3, if_neg h2,
        csvScan_unquoted_plain _ _ _ _ hcs, csvScan, if_pos rfl]
      simp

theorem csvScan_first_comma (f rest : List Char) :
    csvScan .recordStart (csvField f ++ ',' :: rest) = csvScan (.fieldStart [f]) rest := by
  unfold csvField
  cases hq : fieldNeedsQuotes f with
  | true =>
    simp only [if_true, List.cons_append, List.append_assoc, List.singleton_append]
    rw [csvScan, if_neg (by decide), if_pos rfl, csvScan_quoted_body, List.nil_append,
      List.nil_append, csvScan,
      if_neg (by decide), if_pos rfl]
    simp
  | false =>
    simp only [Bool.false_eq_true, if_false]
    cases f with
    | nil => simp [csvScan]
    | cons a cs =>
      obtain ⟨h1, h2, h3, hcs⟩ := not_special_of_unquoted a cs hq
      rw [List.cons_append, csvScan, if_neg h1, if_neg h3, if_neg h2,
        csvScan_unquoted_plain _ _ _ _ hcs, csvScan, if_neg (by decide), if_pos rfl]
      simp

theorem csvScan_fields (row : List (List Char)) (g : List Char) (fs : List (List Char))
    (rest : List Char) :
    csvScan (.fieldStart row) (csvFields (g :: fs) ++ '\n' :: rest) =
      emit (row ++ g :: fs) (csvScan .recordStart rest) := by
  induction fs generalizing row g with
  | nil => simpa [csvFields] using csvScan_field_newline row g rest
  | cons h fs ih =>
    simp only [csvFields, List.append_assoc, List.cons_append]
    rw [csvScan_field_comma, ih]
    simp

/-- Reading a written record of at least two fields gives back its fields. -/
theorem csvScan_csvWrite (f g : List Char) (fs : List (List Char)) (rest : List Char) :
    csvScan .recordStart (csvWrite (f :: g :: fs) ++ rest) =
      emit (f :: g :: fs) (csvScan .recordStart rest) := by
  simp only [csvWrite, csvFields, List.append_assoc, List.cons_append, List.singleton_append,
    List.nil_append]
  rw [csvScan_first_comma, csvScan_fields]
  simp

end service

namespace service

theorem csvSpecial_of_floatChar (c : Char) (h : floatChar c = true) : csvSpecial c = false := by
  by_contra hs
  have hs2 : csvSpecial c = true := by simpa using hs
  simp only [csvSpecial, Bool.or_eq_true, decide_eq_true_eq] at hs2
  rcases hs2 with ((rfl | rfl) | rfl) | rfl <;> simp [floatChar, Char.isDigit] at h

theorem dropCR_format {F : Type} (M : GoLib F) (hM : M.Lawful) (x : F) :
    dropCR (M.FormatFloat x).data = (M.FormatFloat x).data := by
  apply dropCR_plain
  rw [List.any_eq_false]
  intro c hc
  simp [csvSpecial_of_floatChar c (hM.format_chars x c hc)]

/-- The records the reader finds in the rows written for `ps`. -/
theorem csvScan_encodeRows {F : Type} (M : GoLib F) (ps : List (Product F)) :
    csvScan .recordStart (normalizeLines (encodeRows M ps)) =
      (ps.map (fun p => (productRecord M p).map dropCR), none) := by
  induction ps with
  | nil => rfl
  | cons p ps ih =>
    rw [encodeRows, normalizeLines_csvWrite]
    simp only [productRecord, List.map_cons, List.map_nil]
    rw [csvScan_csvWrite, ih]
    rfl

/-- The records the reader finds in a written file: the header, then one record per product. -/
theorem csvRecords_encode {F : Type} (M : GoLib F) (ps : List (Product F)) :
    csvRecords (encode M ps) =
      (header.map String.data :: ps.map (fun p => (productRecord M p).map dropCR), none) := by
  have hh : (header.map String.data).map dropCR = header.map String.data := by decide
  rw [csvRecords, encode, normalizeLines_csvWrite, hh]
  simp only [header, List.map_cons, List.map_nil]
  rw [csvScan_csvWrite, csvScan_encodeRows]
  rfl

end service

namespace service

/-! ## The executable instance obeys the laws -/

theorem digitChar_isDigit : ∀ d, d < 10 → (Nat.digitChar d).isDigit = true := by
  decide

theorem toDigitsCore_isDigit (fuel n : Nat) (ds : List Char)
    (hds : ∀ c ∈ ds, c.isDigit = true) :
    ∀ c ∈ Nat.toDigitsCore 10 fuel n ds, c.isDigit = true := by
  induction fuel generalizing n ds with
  | zero => simpa [Nat.toDigitsCore] using hds
  | succ fuel ih =>
    have hd : ∀ c ∈ Nat.digitChar (n % 10) :: ds, c.isDigit = true := by
      intro c hc
      rcases List.mem_cons.mp hc with rfl | hc
      · exact digitChar_isDigit _ (Nat.mod_lt _ (by decide))
      · exact hds c hc
    rw [Nat.toDigitsCore]
    split
    · exact hd
    · exact ih _ _ hd

theorem toDigits_isDigit (n : Nat) : ∀ c ∈ Nat.toDigits 10 n, c.isDigit = true :=
  toDigitsCore_isDigit _ _ _ (by simp)

theorem takeWhile_digits (D : List Char) (x : Char) (r : List Char)
    (hD : ∀ c ∈ D, c.isDigit = true) (hx : x.isDigit = false) :
    (D ++ x :: r).takeWhile Char.isDigit = D ∧ (D ++ x :: r).dropWhile Char.isDigit = x :: r := by
  induction D with
  | nil => simp [List.takeWhile, List.dropWhile, hx]
  | cons a D ih =>
    have ha := hD a (List.mem_cons_self _ _)
    have := ih (fun c hc => hD c (List.mem_cons_of_mem _ hc))
    simp [List.takeWhile, List.dropWhile, ha, this]

theorem splitSign_digits (D : List Char) (r : List Char) (hD : ∀ c ∈ D, c.isDigit = true) :
    splitSign (D ++ '.' :: r) = (false, D ++ '.' :: r) := by
  cases D with
  | nil => rfl
  | cons a D =>
    have ha := hD a (List.mem_cons_self _ _)
    have h1 : a ≠ '-' := by rintro rfl; simp [Char.isDigit] at ha
    have h2 : a ≠ '+' := by rintro rfl; simp [Char.isDigit] at ha
    simp only [List.cons_append]
    unfold splitSign
    split
    · rename_i heq
      simp only [List.cons.injEq] at heq
      exact absurd heq.1 h1
    · rename_i heq
      simp only [List.cons.injEq] at heq
      exact absurd heq.1 h2
    · rfl

theorem Dec64.parseBody_isSome (sign : Int) (D fp : List Char)
    (hD : ∀ c ∈ D, c.isDigit = true) (hfp : fp.all Char.isDigit = true) (hne : fp ≠ []) :
    (Dec64.parseBody sign (D ++ '.' :: fp)).isSome = true := by
  obtain ⟨h1, h2⟩ := takeWhile_digits D '.' fp hD (by decide)
  unfold Dec64.parseBody
  rw [h1, h2]
  have : ¬ (D.isEmpty = true ∧ fp.isEmpty = true) := by
    intro h
    exact hne (List.isEmpty_iff.mp h.2)
  simp only [true_and, hfp, this, not_false_eq_true, and_self, if_true, Option.isSome_some]

theorem Dec64.parse_shape (neg : Bool) (D fp : List Char)
    (hD : ∀ c ∈ D, c.isDigit = true) (hfp : fp.all Char.isDigit = true) (hne : fp ≠ []) :
    (Dec64.parse ((if neg = true then ['-'] else []) ++ D ++ '.' :: fp)).isSome = true := by
  cases neg with
  | true =>
    simp only [if_true, List.cons_append, List.nil_append, List.append_assoc]
    unfold Dec64.parse
    split
    · rfl
    · simp only [splitSign, if_true]
      exact Dec64.parseBody_isSome _ _ _ hD hfp hne
  | false =>
    simp only [Bool.false_eq_true, if_false, List.nil_append]
    unfold Dec64.parse
    split
    · rfl
    · rw [splitSign_digits _ _ hD]
      exact Dec64.parseBody_isSome _ _ _ hD hfp hne

theorem Dec64.parse_of_format (x : Dec64) : (Dec64.parse (Dec64.format x)).isSome = true := by
  cases x with
  | nan => decide
  | num m e =>
    have hfp : ∀ n : Nat, [Nat.digitChar (n / 1000 % 10), Nat.digitChar (n / 100 % 10),
        Nat.digitChar (n / 10 % 10), Nat.digitChar (n % 10)].all Char.isDigit = true := by
      intro n
      simp [digitChar_isDigit _ (Nat.mod_lt _ (show 0 < 10 by decide))]
    have h := Dec64.parse_shape (decide (m < 0))
      (Nat.toDigits 10 (roundHalfEven (m.natAbs * 10 ^ 4) (10 ^ e) / 10 ^ 4)) _
      (toDigits_isDigit _) (hfp (roundHalfEven (m.natAbs * 10 ^ 4) (10 ^ e))) (by simp)
    simpa [Dec64.format] using h

theorem Dec64.format_chars (x : Dec64) : ∀ c ∈ Dec64.format x, floatChar c = true := by
  have hdig : ∀ c : Char, c.isDigit = true → floatChar c = true := by
    intro c hc
    simp [floatChar, hc]
  cases x with
  | nan => decide
  | num m e =>
    intro c hc
    simp only [Dec64.format, List.mem_append, List.mem_cons, List.mem_singleton] at hc
    rcases hc with (hc | hc) | hc
    · split at hc
      · simp only [List.mem_singleton] at hc
        subst hc
        decide
      · simp at hc
    · exact hdig c (toDigits_isDigit _ c hc)
    · rcases hc with rfl | rfl | rfl | rfl | rfl | hc
      · decide
      · exact hdig _ (digitChar_isDigit _ (Nat.mod_lt _ (by decide)))
      · exact hdig _ (digitChar_isDigit _ (Nat.mod_lt _ (by decide)))
      · exact hdig _ (digitChar_isDigit _ (Nat.mod_lt _ (by decide)))
      · exact hdig _ (digitChar_isDigit _ (Nat.mod_lt _ (by decide)))
      · simp at hc

/-- The executable instance satisfies the laws assumed of the library. -/
theorem dec64_lawful : dec64.Lawful where
  format_chars := fun x c hc => Dec64.format_chars x c hc
  format_parses := fun x => Dec64.parse_of_format x
  less_asymm := by
    intro a b h
    cases a <;> cases b <;> simp_all [dec64, Dec64.less]
    exact le_of_lt h
  less_nan := by
    intro a b h
    cases a <;> cases b <;> simp_all [dec64, Dec64.less, Dec64.isNaN]
  not_less_trans := by
    intro a b c hb h1 h2
    cases a <;> cases b <;> cases c <;> simp_all [dec64, Dec64.less, Dec64.isNaN]
    rename_i ma ea mb eb mc ec
    have p1 : (0 : Int) < 10 ^ ea := by positivity
    have p2 : (0 : Int) < 10 ^ eb := by positivity
    have p3 : (0 : Int) < 10 ^ ec := by positivity
    have q1 := mul_le_mul_of_nonneg_right h1 (le_of_lt p3)
    have q2 := mul_le_mul_of_nonneg_right h2 (le_of_lt p1)
    have q3 : (ma * 10 ^ ec) * 10 ^ eb ≤ (mc * 10 ^ ea) * 10 ^ eb := by
      calc (ma * 10 ^ ec) * 10 ^ eb = ma * 10 ^ eb * 10 ^ ec := by ring
        _ ≤ mb * 10 ^ ea * 10 ^ ec := q1
        _ = mb * 10 ^ ec * 10 ^ ea := by ring
        _ ≤ mc * 10 ^ eb * 10 ^ ea := q2
        _ = (mc * 10 ^ ea) * 10 ^ eb := by ring
    exact le_of_mul_le_mul_right q3 p2

end service

namespace service

/-! ## The store operations on lists -/

theorem dropCR_of_no_lf (l : List Char) (h : '\n' ∉ dropCR l) : dropCR l = l := by
  induction l using dropCR.induct with
  | case1 => rfl
  | case2 a => rfl
  | case3 a d cs hc _ =>
    exfalso
    apply h
    rw [dropCR, if_pos hc]
    exact List.mem_cons_self _ _
  | case4 a d cs hc ih =>
    rw [dropCR, if_neg hc] at h ⊢
    rw [ih (fun hm => h (List.mem_cons_of_mem _ hm))]

/-- A key without a line feed is read back from no other key. -/
theorem dropCRs_ne_of_no_lf (k s : String) (hk : '\n' ∉ k.data) (hs : s ≠ k) :
    dropCRs s ≠ k := by
  intro h
  have hd : dropCR s.data = k.data := by
    rw [← h]
    rfl
  have he : dropCR s.data = s.data := dropCR_of_no_lf s.data (by rw [hd]; exact hk)
  apply hs
  have : s.data = k.data := by rw [← he, hd]
  exact String.ext this

theorem removeByID_eq {F : Type} (id : String) (ps acc : List (Product F)) :
    removeByID id ps acc = acc ++ ps.filter (fun p => decide (p.ProductKey ≠ id)) := by
  induction ps generalizing acc with
  | nil => simp [removeByID]
  | cons p ps ih =>
    by_cases h : p.ProductKey = id
    · simp [removeByID, h, ih]
    · simp [removeByID, h, ih]

theorem findByID_eq_notFound {F : Type} (id : String) (ps : List (Product F)) :
    findByID id ps = .error .productNotFound ↔ ∀ p ∈ ps, p.ProductKey ≠ id := by
  induction ps with
  | nil => simp [findByID]
  | cons p ps ih =>
    by_cases h : p.ProductKey = id
    · simp [findByID, h]
    · simp [findByID, h, ih]

theorem findByID_first {F : Type} (id : String) (pre post : List (Product F)) (q : Product F)
    (hpre : ∀ p ∈ pre, p.ProductKey ≠ id) (hq : q.ProductKey = id) :
    findByID id (pre ++ q :: post) = .ok q := by
  induction pre with
  | nil => simp [findByID, hq]
  | cons p pre ih =>
    have hp := hpre p (List.mem_cons_self _ _)
    simp only [List.cons_append, findByID, hp, if_false]
    exact ih (fun x hx => hpre x (List.mem_cons_of_mem _ hx))

/-- A list with a record of key `id` splits at the first such record. -/
theorem exists_first_key {F : Type} (id : String) (ps : List (Product F))
    (h : ∃ p ∈ ps, p.ProductKey = id) :
    ∃ pre q post, ps = pre ++ q :: post ∧ (∀ p ∈ pre, p.ProductKey ≠ id) ∧ q.ProductKey = id := by
  induction ps with
  | nil => simp at h
  | cons p ps ih =>
    by_cases hp : p.ProductKey = id
    · exact ⟨[], p, ps, rfl, by simp, hp⟩
    · have h2 : ∃ x ∈ ps, x.ProductKey = id := by
        obtain ⟨x, hx, hxk⟩ := h
        rcases List.mem_cons.mp hx with rfl | hx
        · exact absurd hxk hp
        · exact ⟨x, hx, hxk⟩
      obtain ⟨pre, q, post, e, hpre, hq⟩ := ih h2
      refine ⟨p :: pre, q, post, by simp [e], ?_, hq⟩
      intro x hx
      rcases List.mem_cons.mp hx with rfl | hx
      · exact hp
      · exact hpre x hx

theorem DeleteProduct_absent {F : Type} (M : GoLib F) (disk : Disk) (d : List (Product F))
    (k : String) (hd : ReadProducts M disk = .ok d) (hk : ∀ p ∈ d, p.ProductKey ≠ k) :
    DeleteProduct M disk k = (disk, some .productNotFound) := by
  have hlen : (removeByID k d []).length = d.length := by
    rw [removeByID_eq, List.nil_append, List.filter_length_eq_length]
    intro p hp
    simpa using hk p hp
  rw [DeleteProduct, hd]
  simp only [hlen, if_true]

theorem DeleteProduct_present {F : Type} (M : GoLib F) (disk : Disk) (d : List (Product F))
    (k : String) (hd : ReadProducts M disk = .ok d) (hk : ∃ p ∈ d, p.ProductKey = k) :
    DeleteProduct M disk k =
      WriteProducts M disk (d.filter (fun p => decide (p.ProductKey ≠ k))) := by
  have hlen : ¬ (removeByID k d []).length = d.length := by
    rw [removeByID_eq, List.nil_append, List.filter_length_eq_length]
    intro h
    obtain ⟨p, hp, hpk⟩ := hk
    simpa [hpk] using h p hp
  rw [DeleteProduct, hd]
  simp only [hlen, if_false]
  rw [removeByID_eq, List.nil_append]

end service

namespace service

/-! ## Sorting -/

theorem insertBack_perm {α : Type} (less : α → α → Bool) (x : α) (l : List α) :
    (insertBack less x l).Perm (x :: l) := by
  induction l with
  | nil => exact List.Perm.refl _
  | cons y ys ih =>
    rw [insertBack]
    split
    · exact (List.Perm.cons y ih).trans (List.Perm.swap x y ys)
    · exact List.Perm.refl _

theorem foldl_insertBack_perm {α : Type} (less : α → α → Bool) (s acc : List α) :
    (s.foldl (fun sorted x => insertBack less x sorted) acc).Perm (s ++ acc) := by
  induction s generalizing acc with
  | nil => exact List.Perm.refl _
  | cons x s ih =>
    rw [List.foldl_cons]
    refine (ih _).trans ?_
    refine (List.Perm.append_left s (insertBack_perm less x acc)).trans ?_
    exact List.perm_middle

/-- The insertion sort rearranges its input. -/
theorem insertionSort_perm {α : Type} (less : α → α → Bool) (s : List α) :
    (insertionSort less s).Perm s := by
  unfold insertionSort
  refine (List.reverse_perm _).trans ?_
  simpa using foldl_insertBack_perm less s []

theorem mem_insertBack {α : Type} (less : α → α → Bool) (x w : α) (l : List α) :
    w ∈ insertBack less x l ↔ w = x ∨ w ∈ l := by
  rw [(insertBack_perm less x l).mem_iff, List.mem_cons]

theorem insertBack_pairwise {α : Type} (less : α → α → Bool) (P : α → Prop)
    (hasymm : ∀ a b, P a → P b → less a b = true → less b a = false)
    (htrans : ∀ a b c, P a → P b → P c →
      less b a = false → less c b = false → less c a = false)
    (x : α) (l : List α) (hx : P x) (hP : ∀ y ∈ l, P y)
    (hl : l.Pairwise (fun a b => less a b = false)) :
    (insertBack less x l).Pairwise (fun a b => less a b = false) := by
  induction l with
  | nil => simp [insertBack]
  | cons y ys ih =>
    rw [List.pairwise_cons] at hl
    have hy : P y := hP y (List.mem_cons_self _ _)
    have hys : ∀ z ∈ ys, P z := fun z hz => hP z (List.mem_cons_of_mem _ hz)
    rw [insertBack]
    cases hxy : less x y with
    | true =>
      simp only [if_true]
      rw [List.pairwise_cons]
      refine ⟨?_, ih hys hl.2⟩
      intro w hw
      rcases (mem_insertBack less x w ys).mp hw with rfl | hw
      · exact hasymm _ _ hx hy hxy
      · exact hl.1 w hw
    | false =>
      simp only [Bool.false_eq_true, if_false]
      rw [List.pairwise_cons]
      refine ⟨?_, List.pairwise_cons.mpr hl⟩
      intro w hw
      rcases List.mem_cons.mp hw with rfl | hw
      · exact hxy
      · exact htrans w y x (hys w hw) hy hx (hl.1 w hw) hxy

theorem foldl_insertBack_pairwise {α : Type} (less : α → α → Bool) (P : α → Prop)
    (hasymm : ∀ a b, P a → P b → less a b = true → less b a = false)
    (htrans : ∀ a b c, P a → P b → P c →
      less b a = false → less c b = false → less c a = false)
    (s acc : List α) (hs : ∀ y ∈ s, P y) (hP : ∀ y ∈ acc, P y)
    (hacc : acc.Pairwise (fun a b => less a b = false)) :
    (s.foldl (fun sorted x => insertBack less x sorted) acc).Pairwise
      (fun a b => less a b = false) := by
  induction s generalizing acc with
  | nil => exact hacc
  | cons x s ih =>
    rw [List.foldl_cons]
    apply ih _ (fun y hy => hs y (List.mem_cons_of_mem _ hy))
    · intro y hy
      rcases (mem_insertBack less x y acc).mp hy with rfl | hy
      · exact hs _ (List.mem_cons_self _ _)
      · exact hP y hy
    · exact insertBack_pairwise less P hasymm htrans x acc (hs x (List.mem_cons_self _ _)) hP
        hacc

/-- The insertion sort leaves no element less than an element before it, when `less` is
asymmetric and "not less" is transitive on the elements of the slice. -/
theorem insertionSort_pairwise {α : Type} (less : α → α → Bool) (P : α → Prop)
    (hasymm : ∀ a b, P a → P b → less a b = true → less b a = false)
    (htrans : ∀ a b c, P a → P b → P c →
      less b a = false → less c b = false → less c a = false)
    (s : List α) (hs : ∀ y ∈ s, P y) :
    (insertionSort less s).Pairwise (fun a b => less b a = false) := by
  unfold insertionSort
  rw [List.pairwise_reverse]
  exact foldl_insertBack_pairwise less P hasymm htrans s [] hs (by simp) List.Pairwise.nil

/-- The executable instance keeps the contract of the library sort. -/
theorem dec64_sortLawful : dec64.SortLawful where
  pdqsort_perm := fun less s => insertionSort_perm less s
  pdqsort_sorted := fun less s hasymm htrans =>
    insertionSort_pairwise less (fun p => p ∈ s)
      (fun a b ha hb h => hasymm a ha b hb h)
      (fun a b c ha hb hc h1 h2 => htrans a ha b hb c hc h1 h2)
      s (fun _ h => h)

/-- `sort.Slice` rearranges its input, at every length. -/
theorem sortSlice_perm {F : Type} (M : GoLib F) (hS : M.SortLawful)
    (less : Product F → Product F → Bool) (s : List (Product F)) :
    (sortSlice M less s).Perm s := by
  unfold sortSlice
  split
  · exact insertionSort_perm less s
  · exact hS.pdqsort_perm less s

/-- `sort.Slice` leaves no element less than an element before it, at every length, when
`less` is a strict weak order on the elements of the slice. -/
theorem sortSlice_pairwise {F : Type} (M : GoLib F) (hS : M.SortLawful)
    (less : Product F → Product F → Bool) (P : Product F → Prop)
    (hasymm : ∀ a b, P a → P b → less a b = true → less b a = false)
    (htrans : ∀ a b c, P a → P b → P c →
      less b a = false → less c b = false → less c a = false)
    (s : List (Product F)) (hs : ∀ y ∈ s, P y) :
    (sortSlice M less s).Pairwise (fun a b => less b a = false) := by
  unfold sortSlice
  split
  · exact insertionSort_pairwise less P hasymm htrans s hs
  · exact hS.pdqsort_sorted less s
      (fun a ha b hb h => hasymm a b (hs a ha) (hs b hb) h)
      (fun a ha b hb c hc h1 h2 => htrans a b c (hs a ha) (hs b hb) (hs c hc) h1 h2)

theorem sortProducts_perm {F : Type} (M : GoLib F) (hS : M.SortLawful)
    (products : List (Product F)) (sortBy : String) :
    (sortProducts M products sortBy).Perm products := by
  unfold sortProducts
  split
  · exact sortSlice_perm M hS _ _
  · split
    · exact sortSlice_perm M hS _ _
    · exact sortSlice_perm M hS _ _

theorem sortSlice_by_string {F : Type} (M : GoLib F) (hS : M.SortLawful)
    (key : Product F → String) (s : List (Product F)) :
    (sortSlice M (fun a b => decide (key a < key b)) s).Pairwise
      (fun a b => key a ≤ key b) := by
  have h := sortSlice_pairwise M hS (fun a b => decide (key a < key b)) (fun _ => True)
    (by
      intro a b _ _ hab
      simp only [decide_eq_true_eq, decide_eq_false_iff_not] at hab ⊢
      exact not_lt_of_lt hab)
    (by
      intro a b c _ _ _ h1 h2
      simp only [decide_eq_false_iff_not, not_lt] at h1 h2 ⊢
      exact le_trans h1 h2)
    s (fun _ _ => trivial)
  refine h.imp ?_
  intro a b hab
  simpa using hab

end service

namespace service

/-! ## Pagination -/

theorem wrap64_of_range (x : Int) (h1 : -(2 ^ 63) ≤ x) (h2 : x < 2 ^ 63) : wrap64 x = x := by
  unfold wrap64
  rw [Int.emod_eq_of_lt (by omega) (by omega)]
  omega

/-- Without overflow, the page is the slice of at most `pageSize` elements that starts at
`(page - 1) * pageSize`; `off` is that product. -/
theorem paginate_in_range {F : Type} (s : List (Product F)) (page pageSize : Int) (off : Nat)
    (hp : 1 ≤ page) (hp2 : page < 2 ^ 63) (hn : 1 ≤ pageSize) (hn2 : pageSize < 2 ^ 63)
    (hoff : (page - 1) * pageSize = off) (hoff2 : (off : Int) < 2 ^ 63)
    (hstop : off ≤ s.length → (off : Int) + pageSize < 2 ^ 63) :
    paginate s page pageSize = .ok ((s.drop off).take pageSize.toNat) := by
  unfold paginate
  have e1 : wrap64 (page - 1) = page - 1 := wrap64_of_range _ (by omega) (by omega)
  have e2 : wrap64 ((page - 1) * pageSize) = off := by
    rw [hoff]
    exact wrap64_of_range _ (by omega) hoff2
  simp only [e1, e2]
  by_cases hgt : (off : Int) > s.length
  · simp only [hgt, if_true]
    have : s.length ≤ off := by omega
    rw [List.drop_eq_nil_of_le this, List.take_nil]
  · simp only [hgt, if_false]
    have hle : off ≤ s.length := by omega
    have e3 : wrap64 ((off : Int) + pageSize) = off + pageSize :=
      wrap64_of_range _ (by omega) (hstop hle)
    rw [e3]
    by_cases hclamp : (off : Int) + pageSize > s.length
    · simp only [hclamp, if_true]
      have hc : (0 : Int) ≤ off ∧ (off : Int) ≤ s.length := ⟨by omega, by omega⟩
      simp only [hc, and_self, if_true, Int.toNat_ofNat]
      congr 1
      rw [List.take_of_length_le, List.take_of_length_le]
      · rw [List.length_drop]
        omega
      · rw [List.length_drop]
        omega
    · simp only [hclamp, if_false]
      have hc : (0 : Int) ≤ off ∧ (off : Int) ≤ off + pageSize := ⟨by omega, by omega⟩
      simp only [hc, and_self, if_true, Int.toNat_ofNat]
      congr 2
      omega

end service

namespace service

/-! ## C1 to C3: an operation followed by a lookup -/

end service

namespace service

/-! ## C4: the pages put together -/

theorem collectPages_paginate {F : Type} (s : List (Product F)) (N : Int) (n : Nat)
    (hn : N = n) (hn1 : 1 ≤ n) (hlen : 2 * s.length < 2 ^ 63) :
    ∀ (fuel k off : Nat), off = k * n → (k : Int) + 1 < 2 ^ 63 → (off : Int) < 2 ^ 63 →
      (off ≤ s.length → (off : Int) + n < 2 ^ 63) → s.length - off + 1 ≤ fuel →
      collectPages (fun page => paginate s page N) fuel ((k : Int) + 1) =
        some (.ok (s.drop off)) := by
  intro fuel
  induction fuel with
  | zero => intro k off _ _ _ _ hf; omega
  | succ fuel ih =>
    intro k off hoff hk hoff2 hstop hf
    have hpage : paginate s ((k : Int) + 1) N = .ok ((s.drop off).take n) := by
      have h := paginate_in_range s ((k : Int) + 1) N off (by omega) hk (by omega) (by
          by_cases h0 : off ≤ s.length
          · have := hstop h0
            omega
          · rcases Nat.eq_zero_or_pos k with hk | hk
            · subst hk
              simp at hoff
              omega
            · have : n ≤ off := by
                rw [hoff]
                exact Nat.le_mul_of_pos_left n hk
              omega) (by
          rw [hoff, hn]
          push_cast
          ring) hoff2 (by
          intro h0
          have := hstop h0
          omega)
      rw [h, hn, Int.toNat_ofNat]
    rw [collectPages]
    simp only [hpage]
    cases hres : (s.drop off).take n with
    | nil =>
      simp only
      have hd0 : s.drop off = [] := by
        rcases List.take_eq_nil_iff.mp hres with h | h
        · omega
        · exact h
      rw [hd0]
    | cons x xs =>
      simp only
      have hlt : off < s.length := by
        by_contra hge
        rw [List.drop_eq_nil_of_le (by omega)] at hres
        simp at hres
      have hkoff : k ≤ off := by
        rw [hoff]
        exact Nat.le_mul_of_pos_right k hn1
      have hnext := ih (k + 1) (off + n) (by rw [hoff]; ring) (by
          push_cast
          omega) (by
          have := hstop (le_of_lt hlt)
          exact_mod_cast this) (by
          intro h0
          push_cast
          omega) (by omega)
      have e : ((k : Int) + 1 + 1) = ((k + 1 : Nat) : Int) + 1 := by push_cast; ring
      rw [e, hnext]
      simp only
      rw [← hres, ← List.drop_drop, List.take_append_drop]

/-- C4: for every loadable stored dataset, filter, sort key and page size `N ≥ 1`, requesting
the pages 1, 2, ... and concatenating them up to the first empty page ends (any request bound
above the number of records is enough) and yields the whole filtered and sorted sequence;
that sequence is a rearrangement of the filtered dataset, so a record that passes the filter
occurs in it exactly as often as in the dataset and any other record not at all: nothing is
duplicated, nothing is left out. `N` is a Go `int`; the dataset is one that fits in memory
(`2 * len < 2 ^ 63`); of `sort.Slice` only its contract is used (`SortLawful`), so this holds
at every length. -/
theorem GetProducts_pages_concat {F : Type} [DecidableEq F] (M : GoLib F) (hS : M.SortLawful)
    (disk : Disk) (d : List (Product F)) (N : Int) (filter sort : String) (fuel : Nat)
    (hd : ReadProducts M disk = .ok d) (hN : 1 ≤ N) (hN2 : N < 2 ^ 63)
    (hlen : 2 * d.length < 2 ^ 63) (hfuel : d.length < fuel) :
    collectPages (fun page => GetProducts M disk page N filter sort) fuel 1 =
      some (.ok (sortProducts M (filterProducts M filter d) sort)) ∧
    (sortProducts M (filterProducts M filter d) sort).Perm (filterProducts M filter d) ∧
    (filterProducts M filter d).Sublist d ∧
    (∀ p : Product F, (sortProducts M (filterProducts M filter d) sort).count p =
      if filter = "" ∨ matchesFilter M p filter = true then d.count p else 0) := by
  have hsub : (filterProducts M filter d).Sublist d := by
    unfold filterProducts
    split
    · exact List.filter_sublist d
    · exact List.Sublist.refl d
  have hperm := sortProducts_perm M hS (filterProducts M filter d) sort
  refine ⟨?_, hperm, hsub, ?_⟩
  · have hl : (sortProducts M (filterProducts M filter d) sort).length ≤ d.length := by
      rw [hperm.length_eq]
      exact hsub.length_le
    have hget : (fun page => GetProducts M disk page N filter sort) =
        (fun page => paginate (sortProducts M (filterProducts M filter d) sort) page N) := by
      funext page
      simp [GetProducts, hd]
    rw [hget]
    obtain ⟨n, hn⟩ := Int.eq_ofNat_of_zero_le (show 0 ≤ N by omega)
    have h := collectPages_paginate (sortProducts M (filterProducts M filter d) sort) N n hn
      (by omega) (by omega) fuel 0 0 (by simp) (by norm_num) (by norm_num) (by intro _; omega)
      (by omega)
    simpa using h
  · intro p
    rw [hperm.count_eq p]
    by_cases hf : filter = ""
    · simp [filterProducts, hf]
    · by_cases hm : matchesFilter M p filter = true
      · simp only [filterProducts, hf, ne_eq, not_false_eq_true, if_true, hm, or_true]
        exact List.count_filter hm
      · have hz : (d.filter (fun product => matchesFilter M product filter)).count p = 0 := by
          rw [List.count_eq_zero]
          intro hmem
          exact hm (List.mem_filter.mp hmem).2
        simp [filterProducts, hf, hm, hz]

/-- C4, witness: the three-record dataset `[bike, lock, helmet]`, filtered by `ROAD` (which
`bike` and `helmet` pass and `lock` does not), sorted by price, fetched one record per page;
and the two-record dataset without a filter. -/
theorem GetProducts_pages_concat_witness :
    dec64.SortLawful ∧
    ReadProducts dec64 (AddProduct dec64 twoRecords helmet).1 = .ok [bike, lock, helmet] ∧
    (1 : Int) ≤ 1 ∧ (1 : Int) < 2 ^ 63 ∧
    2 * [bike, lock, helmet].length < 2 ^ 63 ∧ [bike, lock, helmet].length < 4 ∧
    collectPages
      (fun page => GetProducts dec64 (AddProduct dec64 twoRecords helmet).1 page 1 "ROAD" "price")
      4 1 = some (.ok (sortProducts dec64 (filterProducts dec64 "ROAD" [bike, lock, helmet])
        "price")) ∧
    sortProducts dec64 (filterProducts dec64 "ROAD" [bike, lock, helmet]) "price" =
      [helmet, bike] ∧
    collectPages (fun page => GetProducts dec64 twoRecords page 1 "" "price") 3 1 =
      some (.ok [lock, bike]) :=
  ⟨dec64_sortLawful, rfl, by decide, by decide, by decide, by decide,
    (GetProducts_pages_concat dec64 dec64_sortLawful (AddProduct dec64 twoRecords helmet).1
      [bike, lock, helmet] 1 "ROAD" "price" 4 rfl (by decide) (by decide) (by decide)
      (by decide)).1,
    rfl, rfl⟩

end service

namespace service

/-! ## C5 to C7: sorting, filtering, one page -/

/-- C5, counterexample: the file holds the prices 3, NaN and 1 (a price column `NaN` parses
without error). Every comparison with NaN is false, so the insertion sort moves nothing, and
the listing by price comes back as 3, NaN, 1: the last price is less than the first. -/
theorem sortProducts_price_with_NaN :
    ReadProducts dec64 nanStore = .ok [tube, pump, bell] ∧
    sortProducts dec64 [tube, pump, bell] "price" = [tube, pump, bell] ∧
    GetProducts dec64 nanStore 1 10 "" "price" = .ok [tube, pump, bell] ∧
    dec64.less bell.ProductPrice tube.ProductPrice = true :=
  ⟨rfl, rfl, rfl, rfl⟩

/-- C5, amended: `sortProducts` yields a permutation of its input; with the sort key `price`
and no NaN among the prices, no product has a price less than that of a product before it;
with the sort key `name` the names are non-decreasing; with any other sort key, the empty
string included, the keys are non-decreasing. This holds at every length: on at most 12
elements by the insertion sort that `sort.Slice` runs, above by its contract
(`SortLawful`). -/
theorem sortProducts_sorted {F : Type} (M : GoLib F) (hM : M.Lawful) (hS : M.SortLawful)
    (products : List (Product F)) (sortBy : String) :
    (sortProducts M products sortBy).Perm products ∧
    (sortBy = "price" → (∀ p ∈ products, M.isNaN p.ProductPrice = false) →
      (sortProducts M products sortBy).Pairwise
        (fun a b => M.less b.ProductPrice a.ProductPrice = false)) ∧
    (sortBy = "name" →
      (sortProducts M products sortBy).Pairwise (fun a b => a.ProductName ≤ b.ProductName)) ∧
    (sortBy ≠ "price" → sortBy ≠ "name" →
      (sortProducts M products sortBy).Pairwise (fun a b => a.ProductKey ≤ b.ProductKey)) := by
  refine ⟨sortProducts_perm M hS products sortBy, ?_, ?_, ?_⟩
  · intro hs hnan
    subst hs
    simp only [sortProducts, if_true]
    exact sortSlice_pairwise M hS (fun a b => M.less a.ProductPrice b.ProductPrice)
      (fun p => M.isNaN p.ProductPrice = false)
      (fun a b _ _ h => hM.less_asymm a.ProductPrice b.ProductPrice h)
      (fun a b c _ hb _ h1 h2 =>
        hM.not_less_trans a.ProductPrice b.ProductPrice c.ProductPrice hb h1 h2)
      products hnan
  · intro hs
    subst hs
    have hne : ¬ ("name" = "price") := by decide
    simp only [sortProducts, hne, if_false, if_true]
    exact sortSlice_by_string M hS (fun p => p.ProductName) products
  · intro h1 h2
    simp only [sortProducts, h1, h2, if_false]
    exact sortSlice_by_string M hS (fun p => p.ProductKey) products

/-- C5, witness: the dataset `[{P1, 30, Bike}, {P2, 10, Lock}]` listed by price. -/
theorem sortProducts_sorted_witness :
    dec64.Lawful ∧ dec64.SortLawful ∧
    (∀ p ∈ [bike, lock], dec64.isNaN p.ProductPrice = false) ∧
    GetProducts dec64 twoRecords 1 10 "" "price" = .ok [lock, bike] ∧
    sortProducts dec64 [bike, lock] "price" = [lock, bike] ∧
    (sortProducts dec64 [bike, lock] "price").Pairwise
      (fun a b => dec64.less b.ProductPrice a.ProductPrice = false) :=
  ⟨dec64_lawful, dec64_sortLawful, by decide, rfl, rfl,
    (sortProducts_sorted dec64 dec64_lawful dec64_sortLawful [bike, lock] "price").2.1 rfl
      (by decide)⟩

/-- C7, at the failing input: for `page = 2 ^ 61 + 1` and `pageSize = 6` the product
`(page - 1) * pageSize` is `3 * 2 ^ 62`, which wraps to `-(2 ^ 62)` in 64-bit arithmetic; the
test `start > len` does not catch a negative `start`, and the slice expression panics,
whereas `start` as the claim computes it exceeds the length and the result should be the empty
sequence. With `page = 2 ^ 62 + 1` and `pageSize = 4` the product wraps to 0 and the first
page comes back instead of the empty sequence. -/
theorem GetProducts_page_overflow :
    wrap64 ((2305843009213693953 - 1) * 6) = -4611686018427387904 ∧
    GetProducts dec64 twoRecords 2305843009213693953 6 "" "price" = .error .sliceBounds ∧
    GetProducts dec64 twoRecords 4611686018427387905 4 "" "price" = .ok [lock, bike] :=
  ⟨by decide, rfl, rfl⟩

/-- The two scenarios of the spec for one page: on `[bike, lock]` sorted by price, page 2 of
size 1 is `[bike]` and page 3 of size 1 is empty. -/
theorem GetProducts_page_scenarios :
    GetProducts dec64 twoRecords 2 1 "" "price" = .ok [bike] ∧
    GetProducts dec64 twoRecords 3 1 "" "price" = .ok [] :=
  ⟨rfl, rfl⟩

/-- The part of C7 that holds: as long as `(page - 1) * pageSize + pageSize` stays below
`2 ^ 63`, `GetProducts` returns the elements of the filtered and sorted sequence at the
positions from `start = (page - 1) * pageSize` up to `min (start + pageSize) n`, which is the
empty sequence when `start` exceeds `n`, and never more than `pageSize` elements. -/
theorem GetProducts_page_in_range {F : Type} (M : GoLib F) (disk : Disk)
    (d : List (Product F)) (page pageSize : Int) (filter sort : String)
    (hd : ReadProducts M disk = .ok d) (hp : 1 ≤ page) (hn : 1 ≤ pageSize)
    (hfit : (page - 1) * pageSize + pageSize < 2 ^ 63) :
    GetProducts M disk page pageSize filter sort =
      .ok (((sortProducts M (filterProducts M filter d) sort).drop
        ((page - 1) * pageSize).toNat).take pageSize.toNat) ∧
    (((sortProducts M (filterProducts M filter d) sort).drop
        ((page - 1) * pageSize).toNat).take pageSize.toNat).length ≤ pageSize.toNat := by
  refine ⟨?_, List.length_take_le _ _⟩
  have h0 : 0 ≤ (page - 1) * pageSize := Int.mul_nonneg (by omega) (by omega)
  obtain ⟨off, hoff⟩ := Int.eq_ofNat_of_zero_le h0
  have hpage : page - 1 ≤ (page - 1) * pageSize := by
    have := Int.mul_le_mul_of_nonneg_left hn (show 0 ≤ page - 1 by omega)
    simpa using this
  simp only [GetProducts, hd]
  rw [paginate_in_range _ page pageSize off hp (by omega) hn (by omega) hoff (by omega)
    (by intro _; omega), hoff, Int.toNat_ofNat]

end service

namespace service

/-! ## C8 to C10: what delete and update write -/

/-- C9: on a loadable stored dataset `d`, `DeleteProduct(k)` fails with "product not found"
if and only if no record of `d` has the key `k`, and in that case the file is left as it
was. -/
theorem DeleteProduct_notFound_iff {F : Type} (M : GoLib F) (disk : Disk)
    (d : List (Product F)) (k : String) (hd : ReadProducts M disk = .ok d) :
    ((DeleteProduct M disk k).2 = some .productNotFound ↔ ∀ p ∈ d, p.ProductKey ≠ k) ∧
    ((∀ p ∈ d, p.ProductKey ≠ k) → (DeleteProduct M disk k).1 = disk) := by
  constructor
  · constructor
    · intro h p hp hpk
      rw [DeleteProduct_present M disk d k hd ⟨p, hp, hpk⟩] at h
      by_cases hw : disk.writable = true
      · simp [WriteProducts, hw] at h
      · simp [WriteProducts, hw] at h
    · intro h
      rw [DeleteProduct_absent M disk d k hd h]
  · intro h
    rw [DeleteProduct_absent M disk d k hd h]

/-- C9, witness: `DeleteProduct("P9")` on `[bike, lock]` returns "product not found" and
leaves the file, and with it both records, as they were. -/
theorem DeleteProduct_notFound_iff_witness :
    ReadProducts dec64 twoRecords = .ok [bike, lock] ∧
    (∀ p ∈ [bike, lock], p.ProductKey ≠ "P9") ∧
    (DeleteProduct dec64 twoRecords "P9").2 = some .productNotFound ∧
    (DeleteProduct dec64 twoRecords "P9").1 = twoRecords ∧
    ReadProducts dec64 (DeleteProduct dec64 twoRecords "P9").1 = .ok [bike, lock] :=
  ⟨rfl, by decide,
    (DeleteProduct_notFound_iff dec64 twoRecords [bike, lock] "P9" rfl).1.mpr (by decide),
    rfl, rfl⟩

end service

namespace service

/-! ## C11 to C14: lookup, append, rows that cannot be decoded -/

/-- C11: on a loadable stored dataset `d`, `GetProductByID(k)` returns the first record of `d`
whose key is `k` (if `d = pre ++ q :: post` with no key `k` in `pre` and `q.ProductKey = k`, it
returns `q`, and every `d` that holds the key splits this way), and it fails with "product not
found" if and only if no record of `d` has the key. It opens the file for reading only: the
operation has no file state to return. -/
theorem GetProductByID_first {F : Type} (M : GoLib F) (disk : Disk) (d : List (Product F))
    (k : String) (hd : ReadProducts M disk = .ok d) :
    (∀ pre q post, d = pre ++ q :: post → (∀ p ∈ pre, p.ProductKey ≠ k) → q.ProductKey = k →
      GetProductByID M disk k = .ok q) ∧
    ((∃ p ∈ d, p.ProductKey = k) → ∃ pre q post, d = pre ++ q :: post ∧
      (∀ p ∈ pre, p.ProductKey ≠ k) ∧ q.ProductKey = k) ∧
    (GetProductByID M disk k = .error .productNotFound ↔ ∀ p ∈ d, p.ProductKey ≠ k) := by
  refine ⟨?_, exists_first_key k d, ?_⟩
  · intro pre q post e hpre hq
    rw [GetProductByID, hd, e]
    exact findByID_first k pre post q hpre hq
  · rw [GetProductByID, hd]
    exact findByID_eq_notFound k d

/-- C11, witness: on `[bike, lock, helmet]`, where `bike` and `helmet` share the key `P1`,
the lookup of `P1` returns `bike`; the lookup of `P9` fails with "product not found". -/
theorem GetProductByID_first_witness :
    ReadProducts dec64 (AddProduct dec64 twoRecords helmet).1 = .ok [bike, lock, helmet] ∧
    GetProductByID dec64 (AddProduct dec64 twoRecords helmet).1 "P1" = .ok bike ∧
    GetProductByID dec64 (AddProduct dec64 twoRecords helmet).1 "P9" =
      .error .productNotFound :=
  ⟨rfl,
    (GetProductByID_first dec64 (AddProduct dec64 twoRecords helmet).1 [bike, lock, helmet]
      "P1" rfl).1 [] bike [lock, helmet] rfl (by decide) rfl,
    rfl⟩

/-- A record whose field count differs from that of the header ends the loop of
`ReadProducts` with an error, whatever else the file holds. -/
theorem readLoop_field_count {F : Type} (M : GoLib F) (n : Nat) (e : Option CsvError)
    (rows : List (List (List Char))) (acc : List (Product F))
    (h : ∃ row ∈ rows, row.length ≠ n) :
    ∃ err, readLoop M n e rows acc = .error err := by
  induction rows generalizing acc with
  | nil => simp at h
  | cons r rows ih =>
    by_cases hr : r.length ≠ n
    · exact ⟨.csv .ErrFieldCount, by simp [readLoop, hr]⟩
    · have h2 : ∃ row ∈ rows, row.length ≠ n := by
        obtain ⟨row, hrow, hlen⟩ := h
        rcases List.mem_cons.mp hrow with rfl | hrow
        · exact absurd hlen hr
        · exact ⟨row, hrow, hlen⟩
      rw [readLoop, if_neg hr]
      split
      · exact ih _ h2
      · split
        · exact ⟨_, rfl⟩
        · split
          · exact ⟨_, rfl⟩
          · exact ih _ h2

/-- With a header of 11 columns, a data row of fewer than 11 fields makes `ReadProducts`
fail: the reader demands of every record the field count of the first one, so the test
`len(record) < 11` is never reached for such a row. -/
theorem ReadProducts_short_row_fails {F : Type} (M : GoLib F) (disk : Disk) (text : List Char)
    (hdr : List (List Char)) (rows : List (List (List Char))) (e : Option CsvError)
    (hc : disk.content = some text) (hrec : csvRecords text = (hdr :: rows, e))
    (hhdr : hdr.length = 11) (hshort : ∃ row ∈ rows, row.length < 11) :
    ∃ err, ReadProducts M disk = .error err := by
  have h : ∃ row ∈ rows, row.length ≠ hdr.length := by
    obtain ⟨row, hrow, hlen⟩ := hshort
    exact ⟨row, hrow, by omega⟩
  obtain ⟨err, herr⟩ := readLoop_field_count M hdr.length e rows [] h
  exact ⟨err, by simp [ReadProducts, hc, decode, hrec, herr]⟩

/-- C13, at the failing input: the file holds the 11-column header, the row `P9,broken` and
the well-formed row of `bike`. The reader reports the short row as `ErrFieldCount` ("wrong
number of fields"), and `ReadProducts` returns that error instead of skipping the row and
returning `[bike]`; with it every operation of the store fails. -/
theorem ReadProducts_short_row :
    csvRecords (shortRowStore.content.getD []) =
      (header.map String.data :: ["P9".data, "broken".data] :: [productRecord dec64 bike],
        none) ∧
    ReadProducts dec64 shortRowStore = .error (.csv .ErrFieldCount) ∧
    GetProducts dec64 shortRowStore 1 10 "" "price" = .error (.csv .ErrFieldCount) :=
  ⟨rfl, rfl, rfl⟩

/-- After a parse error of the reader the loop of `ReadProducts` ends with an error. -/
theorem readLoop_csv_error {F : Type} (M : GoLib F) (n : Nat) (cerr : CsvError)
    (rows : List (List (List Char))) (acc : List (Product F)) :
    ∃ err, readLoop M n (some cerr) rows acc = .error err := by
  induction rows generalizing acc with
  | nil => exact ⟨.csv cerr, rfl⟩
  | cons r rows ih =>
    rw [readLoop]
    split
    · exact ⟨_, rfl⟩
    · split
      · exact ih _
      · split
        · exact ⟨_, rfl⟩
        · split
          · exact ⟨_, rfl⟩
          · exact ih _

end service

namespace service

/-! ## C15 and C20: the two round trips of the codec -/

theorem length_eq_eleven {α : Type} (l : List α) (h : l.length = 11) :
    ∃ a0 a1 a2 a3 a4 a5 a6 a7 a8 a9 a10, l = [a0, a1, a2, a3, a4, a5, a6, a7, a8, a9, a10] := by
  match l, h with
  | [a0, a1, a2, a3, a4, a5, a6, a7, a8, a9, a10], _ =>
    exact ⟨a0, a1, a2, a3, a4, a5, a6, a7, a8, a9, a10, rfl⟩

/-- The loop of `ReadProducts` on rows of 11 fields whose cost and price parse: it appends one
product per row, and the record that `WriteProducts` builds from each product is the row with
cost and price renumbered. -/
theorem readLoop_wellformed {F : Type} (M : GoLib F) (rows : List (List (List Char)))
    (acc : List (Product F))
    (h : ∀ row ∈ rows, row.length = 11 ∧
      (M.ParseFloat (String.mk (row.getD 9 []))).isSome = true ∧
      (M.ParseFloat (String.mk (row.getD 10 []))).isSome = true) :
    ∃ ps, readLoop M 11 none rows acc = .ok (acc ++ ps) ∧
      ps.map (productRecord M) = rows.map (rowAsClaimed M) := by
  induction rows generalizing acc with
  | nil => exact ⟨[], by simp [readLoop], rfl⟩
  | cons r rows ih =>
    obtain ⟨hlen, hc, hp⟩ := h r (List.mem_cons_self _ _)
    obtain ⟨cost, hcost⟩ := Option.isSome_iff_exists.mp hc
    obtain ⟨price, hprice⟩ := Option.isSome_iff_exists.mp hp
    obtain ⟨a0, a1, a2, a3, a4, a5, a6, a7, a8, a9, a10, rfl⟩ := length_eq_eleven r hlen
    simp only [List.getD_cons_succ, List.getD_cons_zero] at hcost hprice
    obtain ⟨ps, hps, hmap⟩ := ih (acc ++ [⟨String.mk a0, String.mk a1, String.mk a2,
      String.mk a3, String.mk a4, String.mk a5, String.mk a6, String.mk a7, String.mk a8,
      cost, price⟩]) (fun row hrow => h row (List.mem_cons_of_mem _ hrow))
    refine ⟨⟨String.mk a0, String.mk a1, String.mk a2, String.mk a3, String.mk a4,
      String.mk a5, String.mk a6, String.mk a7, String.mk a8, cost, price⟩ :: ps, ?_, ?_⟩
    · rw [readLoop]
      simp only [List.length_cons, List.length_nil, List.getD_cons_succ, List.getD_cons_zero,
        hcost, hprice]
      simpa using hps
    · simp only [List.map_cons, hmap, productRecord, rowAsClaimed, renumber,
        List.getD_cons_succ, List.getD_cons_zero, hcost, hprice]

theorem rowAsClaimed_dropCR {F : Type} (M : GoLib F) (hM : M.Lawful) (row : List (List Char))
    (hc : (M.ParseFloat (String.mk (row.getD 9 []))).isSome = true)
    (hp : (M.ParseFloat (String.mk (row.getD 10 []))).isSome = true) :
    (rowAsClaimed M row).map dropCR = rowAsReread M row := by
  obtain ⟨cost, hcost⟩ := Option.isSome_iff_exists.mp hc
  obtain ⟨price, hprice⟩ := Option.isSome_iff_exists.mp hp
  simp only [rowAsClaimed, rowAsReread, renumber, hcost, hprice, List.map_cons, List.map_nil,
    dropCR_format M hM]

/-- C15, counterexample: the source `crlfSource` is well formed: a header and one row of 11
fields with the cost `3.0000` and the price `4.0000`; its key field has the value `A\r\nB`.
Decoding it and encoding the result gives a file in which the key field of that row has the
value `A\nB`: the carriage return is lost. -/
theorem decode_encode_loses_CR :
    csvRecords crlfSource =
      ([header.map String.data,
        ["A\r\nB".data, "5".data, "NT-2".data, "Memo".data, "Plain".data, "Paper memo".data,
          "White".data, "S".data, "U".data, "3.0000".data, "4.0000".data]], none) ∧
    (match decode dec64 crlfSource with
      | .ok ps => csvRecords (encode dec64 ps)
      | .error _ => ([], none)) =
      ([header.map String.data,
        ["A\nB".data, "5".data, "NT-2".data, "Memo".data, "Plain".data, "Paper memo".data,
          "White".data, "S".data, "U".data, "3.0000".data, "4.0000".data]], none) ∧
    "A\nB".data ≠ "A\r\nB".data :=
  ⟨rfl, rfl, by decide⟩

/-- C15, amended: for a well-formed source (a header of 11 columns, then rows of 11 fields
whose cost and price parse), `ReadProducts` succeeds with one product per row, the records
that `WriteProducts` then writes are the rows of the source with cost and price formatted
with 4 decimals, and the file it produces has the standard header and, row by row and in the
same order, the field values of the source except that in the nine strings a carriage return
right before a line feed is dropped. -/
theorem decode_then_encode {F : Type} (M : GoLib F) (hM : M.Lawful) (disk : Disk)
    (text : List Char) (hdr : List (List Char)) (rows : List (List (List Char)))
    (hc : disk.content = some text) (hrec : csvRecords text = (hdr :: rows, none))
    (hhdr : hdr.length = 11)
    (hrows : ∀ row ∈ rows, row.length = 11 ∧
      (M.ParseFloat (String.mk (row.getD 9 []))).isSome = true ∧
      (M.ParseFloat (String.mk (row.getD 10 []))).isSome = true) :
    ∃ ps, ReadProducts M disk = .ok ps ∧ ps.length = rows.length ∧
      ps.map (productRecord M) = rows.map (rowAsClaimed M) ∧
      csvRecords (encode M ps) = (header.map String.data :: rows.map (rowAsReread M), none) := by
  obtain ⟨ps, hps, hmap⟩ := readLoop_wellformed M rows [] hrows
  refine ⟨ps, ?_, ?_, hmap, ?_⟩
  · simp only [ReadProducts, hc, decode, hrec, hhdr]
    simpa using hps
  · have := congrArg List.length hmap
    simpa using this
  · rw [csvRecords_encode]
    congr 2
    have h1 : ps.map (fun p => (productRecord M p).map dropCR) =
        (ps.map (productRecord M)).map (List.map dropCR) := by
      rw [List.map_map]
      rfl
    rw [h1, hmap, List.map_map]
    apply List.map_congr_left
    intro row hrow
    exact rowAsClaimed_dropCR M hM row (hrows row hrow).2.1 (hrows row hrow).2.2

/-- C15, witness: the file of `[bike, lock]`, whose source rows carry the prices `30.0000`
and `10.0000`, comes back with the same rows. -/
theorem decode_then_encode_witness :
    dec64.Lawful ∧
    csvRecords (encode dec64 [bike, lock]) =
      (header.map String.data :: [productRecord dec64 bike, productRecord dec64 lock], none) ∧
    (∃ ps, ReadProducts dec64 twoRecords = .ok ps ∧ ps.length = 2 ∧
      ps.map (productRecord dec64) =
        [productRecord dec64 bike, productRecord dec64 lock].map (rowAsClaimed dec64) ∧
      csvRecords (encode dec64 ps) = (header.map String.data ::
        [productRecord dec64 bike, productRecord dec64 lock].map (rowAsReread dec64), none)) ∧
    [productRecord dec64 bike, productRecord dec64 lock].map (rowAsReread dec64) =
      [productRecord dec64 bike, productRecord dec64 lock] :=
  ⟨dec64_lawful, rfl,
    decode_then_encode dec64 dec64_lawful twoRecords (encode dec64 [bike, lock])
      (header.map String.data) [productRecord dec64 bike, productRecord dec64 lock]
      rfl rfl rfl (by decide),
    rfl⟩

end service

namespace handler

open service

/-! ## C16 to C19: the handlers -/

/-- The status codes of the four handlers that tell the outcomes of the store apart: create
answers 201 on success and 500 on any failure; the list handler 200 and 500; update 200 on
success, 404 on "product not found" and 500 on any other failure; delete 204, 404 and 500. -/
theorem status_of_outcome {F : Type} (M : GoLib F) (disk : Disk) :
    (∀ r, (CreateProduct M disk (some r)).2.status =
      if (AddProduct M disk r).2 = none then 201 else 500) ∧
    (∀ pageStr pageSizeStr filter sort,
      (GetProducts M disk pageStr pageSizeStr filter sort).status =
        match service.GetProducts M disk (pageOf pageStr) (pageSizeOf pageSizeStr) filter sort
        with
        | .ok _ => 200
        | .error _ => 500) ∧
    (∀ k r, (UpdateProduct M disk k (some r)).2.status =
      match (service.UpdateProduct M disk k r).2 with
      | none => 200
      | some .productNotFound => 404
      | some _ => 500) ∧
    (∀ k, (DeleteProduct M disk k).2.status =
      match (service.DeleteProduct M disk k).2 with
      | none => 204
      | some .productNotFound => 404
      | some _ => 500) := by
  refine ⟨?_, ?_, ?_, ?_⟩
  · intro r
    rcases h : AddProduct M disk r with ⟨d2, _ | err⟩ <;> simp [CreateProduct, h]
  · intro pageStr pageSizeStr filter sort
    rcases h : service.GetProducts M disk (pageOf pageStr) (pageSizeOf pageSizeStr) filter sort
      with err | ps
    · cases err <;> simp [GetProducts, h]
    · simp [GetProducts, h]
  · intro k r
    rcases h : service.UpdateProduct M disk k r with ⟨d2, _ | err⟩
    · simp [UpdateProduct, h]
    · cases err <;> simp [UpdateProduct, h]
  · intro k
    rcases h : service.DeleteProduct M disk k with ⟨d2, _ | err⟩
    · simp [DeleteProduct, h]
    · cases err <;> simp [DeleteProduct, h]

/-- C16, at the failing input: the file `badPriceStore` cannot be loaded (a price is the text
`abc`), so the store answers `GetProductByID("P1")` with the parse error, which is not "product
not found"; the handler answers 404 all the same, where the claim, the 500 that the handler
declares, and the handlers of update and delete call for 500. A file that cannot be opened is
answered with 404 as well. -/
theorem GetProductByID_load_failure :
    service.GetProductByID dec64 badPriceStore "P1" = .error .parseFloat ∧
    GetProductByID dec64 badPriceStore "P1" = ⟨404, .failure .parseFloat⟩ ∧
    (DeleteProduct dec64 badPriceStore "P1").2 = ⟨500, .failure .parseFloat⟩ ∧
    GetProductByID dec64 ⟨none, true⟩ "P1" = ⟨404, .failure .openFailed⟩ :=
  ⟨rfl, rfl, rfl, rfl⟩

/-- The handler of the lookup answers 404 to every failure of the store and 200 to a
success. -/
theorem GetProductByID_status {F : Type} (M : GoLib F) (disk : Disk) (k : String) :
    (GetProductByID M disk k).status =
      match service.GetProductByID M disk k with
      | .ok _ => 200
      | .error _ => 404 := by
  rcases h : service.GetProductByID M disk k with err | p <;> simp [GetProductByID, h]

/-- C17, counterexample: the query `pageSize=0` parses to 0, which is below 1, and reaches the
store as 10, not as 1: with `page=1` the list handler returns both records of `[bike, lock]`,
where a page size of 1 returns one. -/
theorem pageSizeOf_zero :
    Atoi "0" = some 0 ∧ pageSizeOf "0" = 10 ∧
    GetProducts dec64 twoRecords "1" "0" "" "price" = ⟨200, .products [lock, bike]⟩ ∧
    GetProducts dec64 twoRecords "1" "1" "" "price" = ⟨200, .products [lock]⟩ :=
  ⟨rfl, rfl, rfl, rfl⟩

/-- C17, amended: the list handler calls the store with `pageOf` and `pageSizeOf` of the query
parameters; both are at least 1; a `page` that `strconv.Atoi` rejects (no integer, or an
integer outside the 64-bit range) or that is below 1 reaches the store as 1; a `pageSize` that
`strconv.Atoi` rejects or that is below 1 reaches the store as 10; a value that
`strconv.Atoi` accepts and that is at least 1 reaches the store as it is. -/
theorem page_defaults {F : Type} (M : GoLib F) (disk : Disk)
    (pageStr pageSizeStr filter sort : String) :
    1 ≤ pageOf pageStr ∧ 1 ≤ pageSizeOf pageSizeStr ∧
    (∀ n, Atoi pageStr = some n → n < 1 → pageOf pageStr = 1) ∧
    (Atoi pageStr = none → pageOf pageStr = 1) ∧
    (∀ n, Atoi pageStr = some n → 1 ≤ n → pageOf pageStr = n) ∧
    (∀ n, Atoi pageSizeStr = some n → n < 1 → pageSizeOf pageSizeStr = 10) ∧
    (Atoi pageSizeStr = none → pageSizeOf pageSizeStr = 10) ∧
    (∀ n, Atoi pageSizeStr = some n → 1 ≤ n → pageSizeOf pageSizeStr = n) ∧
    (GetProducts M disk pageStr pageSizeStr filter sort).status =
      match service.GetProducts M disk (pageOf pageStr) (pageSizeOf pageSizeStr) filter sort
      with
      | .ok _ => 200
      | .error _ => 500 := by
  refine ⟨?_, ?_, ?_, ?_, ?_, ?_, ?_, ?_, (status_of_outcome M disk).2.1 _ _ _ _⟩
  · unfold pageOf
    split
    · decide
    · split <;> omega
  · unfold pageSizeOf
    split
    · decide
    · split <;> omega
  · intro n h hn
    simp [pageOf, h, hn]
  · intro h
    simp [pageOf, h]
  · intro n h hn
    have : ¬ n < 1 := by omega
    simp [pageOf, h, this]
  · intro n h hn
    simp [pageSizeOf, h, hn]
  · intro h
    simp [pageSizeOf, h]
  · intro n h hn
    have : ¬ n < 1 := by omega
    simp [pageSizeOf, h, this]

/-- C17, witness: `page=-3` reaches the store as 1, `pageSize=-3` as 10, `page=abc` as 1,
`pageSize=25` as 25; and the numeral `9223372036854775808`, which is `2 ^ 63`, is rejected by
`strconv.Atoi` and reaches the store as 1 as a page and as 10 as a page size. -/
theorem page_defaults_witness :
    Atoi "-3" = some (-3) ∧ pageOf "-3" = 1 ∧ pageSizeOf "-3" = 10 ∧
    Atoi "abc" = none ∧ pageOf "abc" = 1 ∧ pageSizeOf "25" = 25 ∧
    Atoi "9223372036854775808" = none ∧ pageOf "9223372036854775808" = 1 ∧
    pageSizeOf "9223372036854775808" = 10 :=
  ⟨rfl, (page_defaults dec64 twoRecords "-3" "-3" "" "").2.2.1 (-3) rfl (by decide),
    (page_defaults dec64 twoRecords "-3" "-3" "" "").2.2.2.2.2.1 (-3) rfl (by decide),
    rfl, rfl, rfl, rfl,
    (page_defaults dec64 twoRecords "9223372036854775808" "9223372036854775808" ""
      "").2.2.2.1 rfl,
    (page_defaults dec64 twoRecords "9223372036854775808" "9223372036854775808" ""
      "").2.2.2.2.2.2.1 rfl⟩

/-- C18, at the failing input: the body `blank` violates every rule of `ValidateProduct` (all
strings empty, cost 0, price -1), yet the create handler answers 201 and the store holds the
record afterwards, and the update handler answers 200 and the store holds the record in the
place of `bike`: `ValidateProduct` is not called by any handler. -/
theorem CreateProduct_unvalidated :
    model.ValidateProduct dec64 (.num 0 0) blank = false ∧
    (CreateProduct dec64 twoRecords (some blank)).2 = ⟨201, .product blank⟩ ∧
    ReadProducts dec64 (CreateProduct dec64 twoRecords (some blank)).1 =
      .ok [bike, lock, blank] ∧
    (UpdateProduct dec64 twoRecords "P1" (some blank)).2 = ⟨200, .product blank⟩ ∧
    ReadProducts dec64 (UpdateProduct dec64 twoRecords "P1" (some blank)).1 =
      .ok [blank, lock] :=
  ⟨rfl, rfl, rfl, rfl, rfl⟩

/-- The create and update handlers pass every decoded body on to the store, and answer 400,
without calling the store, only when the body could not be decoded. -/
theorem body_passed_on {F : Type} (M : GoLib F) (disk : Disk) (k : String) (r : Product F) :
    (CreateProduct M disk (some r)).1 = (AddProduct M disk r).1 ∧
    (UpdateProduct M disk k (some r)).1 = (service.UpdateProduct M disk k r).1 ∧
    CreateProduct M disk none = (disk, ⟨400, .invalidInput⟩) ∧
    UpdateProduct M disk k none = (disk, ⟨400, .invalidInput⟩) := by
  refine ⟨?_, ?_, rfl, rfl⟩
  · rcases h : AddProduct M disk r with ⟨d2, _ | err⟩ <;> simp [CreateProduct, h]
  · rcases h : service.UpdateProduct M disk k r with ⟨d2, _ | err⟩
    · simp [UpdateProduct, h]
    · by_cases he : err = .productNotFound <;> simp [UpdateProduct, h, he]

/-- The slice expression of `GetProducts` runs on the bounds `pageBounds`, and panics when
they are not in order. -/
theorem paginate_eq_pageBounds {F : Type} (s : List (Product F)) (page pageSize : Int) :
    paginate s page pageSize =
      match pageBounds s.length page pageSize with
      | none => .ok []
      | some (start, stop) =>
          if 0 ≤ start ∧ start ≤ stop then .ok ((s.drop start.toNat).take (stop - start).toNat)
          else .error .sliceBounds := by
  unfold paginate pageBounds
  simp only
  split <;> rfl

/-- C19, at the failing input: the query `page=2305843009213693953&pageSize=6` reaches the
store as it is (`page = 2 ^ 61 + 1`). In 64-bit arithmetic `(page - 1) * pageSize` wraps to
`-(2 ^ 62)`, and `start + pageSize` is negative as well; neither exceeds the length 2, so the
slice expression runs on `start = -4611686018427387904` and `end = -4611686018427387898`,
which breaks `0 ≤ start`, and panics; the recovery middleware answers 500. -/
theorem pageBounds_overflow :
    pageOf "2305843009213693953" = 2305843009213693953 ∧ pageSizeOf "6" = 6 ∧
    pageBounds 2 2305843009213693953 6 =
      some (-4611686018427387904, -4611686018427387898) ∧
    paginate [bike, lock] 2305843009213693953 6 = .error .sliceBounds ∧
    GetProducts dec64 twoRecords "2305843009213693953" "6" "" "price" = ⟨500, .empty⟩ :=
  ⟨rfl, rfl, by decide, rfl, rfl⟩

end handler
